import Mathlib

set_option linter.unusedVariables false
set_option maxRecDepth 8192

/-!
A verification development for the DarkBotManager maintenance core
(`DarkBotManager.py`).  The filesystem is shallowly embedded as a finite
association list from absolute paths (lists of name components) to nodes
(regular files with abstract content, or directories).  The Python
filesystem primitives used by the program (`Path.glob`, `Path.unlink`,
`shutil.rmtree`, `Path.mkdir(parents=True, exist_ok=True)`,
`shutil.copy2`) are modelled as functions on that representation; the
directory-walking `glob` is modelled as a filter over the stored paths,
which agrees with the real walk on prefix-closed (well-formed) filesystems.
-/

namespace DarkBotManager

/-- A filesystem path: the list of its name components from the root. -/
abbrev FsPath := List String

/-- A filesystem node: a regular file with (abstract) byte content, or a
directory. -/
inductive Node where
  | file (content : String)
  | dir
  deriving DecidableEq, Repr

/-- A filesystem: a finite association list from paths to nodes.  Only the
first entry for a given path is visible (`lookup`). -/
abbrev FS := List (FsPath × Node)

/-- Look up the node stored at path `p` (first matching entry). -/
def lookup : FS → FsPath → Option Node
  | [], _ => none
  | e :: rest, p => if e.1 = p then some e.2 else lookup rest p

/-- `Path.exists()`: something is stored at `p`. -/
def existsP (fs : FS) (p : FsPath) : Bool := (lookup fs p).isSome

/-- `Path.is_dir()`: a directory is stored at `p`. -/
def isDir (fs : FS) (p : FsPath) : Bool :=
  match lookup fs p with
  | some Node.dir => true
  | _ => false

/-- `Path.is_file()`: a regular file is stored at `p`. -/
def isFile (fs : FS) (p : FsPath) : Bool :=
  match lookup fs p with
  | some (Node.file _) => true
  | _ => false

/-- The content of the regular file at `p`, if any. -/
def contentOf (fs : FS) (p : FsPath) : Option String :=
  match lookup fs p with
  | some (Node.file c) => some c
  | _ => none

/-- `base` is a (not necessarily strict) ancestor-or-self of `p`:
`p` starts with the components of `base`. -/
def pathStarts : FsPath → FsPath → Bool
  | [], _ => true
  | _ :: _, [] => false
  | a :: as, b :: bs => a == b && pathStarts as bs

/-- `p` lies strictly below `base`. -/
def strictUnder (base p : FsPath) : Bool :=
  pathStarts base p && decide (base.length < p.length)

/-- `Path.name`: the last component of a path (`""` for the root). -/
def lastName (p : FsPath) : String := p.getLastD ""

/-- `p` is a direct child of `base`. -/
def isDirectChild (base p : FsPath) : Bool :=
  decide (p.dropLast = base ∧ p ≠ [])

/-- `a` is a prefix of the character list `b`. -/
def charsStart : List Char → List Char → Bool
  | [], _ => true
  | _ :: _, [] => false
  | a :: as, b :: bs => a == b && charsStart as bs

/-- `s` ends with the string `suf` (the semantics of a `*`‑pattern such as
`*.log` in `fnmatch`, where `*` also matches the empty string). -/
def strEnds (suf s : String) : Bool := charsStart suf.data.reverse s.data.reverse

/-- All paths stored in the filesystem (with multiplicity). -/
def keys (fs : FS) : List FsPath := fs.map Prod.fst

/-- `logs_dir.glob("**/*.log")`: every stored path strictly below `base`
whose name matches `*.log`. -/
def globLogs (fs : FS) (base : FsPath) : List FsPath :=
  (keys fs).filter (fun p => strictUnder base p && strEnds ".log" (lastName p))

/-- `folder.glob("*.jar")`: every stored path directly below `base` whose
name matches `*.jar`. -/
def globDirectJars (fs : FS) (base : FsPath) : List FsPath :=
  (keys fs).filter (fun p => isDirectChild base p && strEnds ".jar" (lastName p))

/-- `folder.iterdir()`: every stored path directly below `base`. -/
def listChildren (fs : FS) (base : FsPath) : List FsPath :=
  (keys fs).filter (fun p => isDirectChild base p)

/-- Remove every entry whose path satisfies `f`. -/
def dropWhere (f : FsPath → Bool) (fs : FS) : FS :=
  fs.filter (fun e => !(f e.1))

/-- Remove the entry stored at `p` (all occurrences). -/
def eraseKey (fs : FS) (p : FsPath) : FS :=
  dropWhere (fun q => decide (q = p)) fs

/-- `Path.unlink()`: removes the regular file at `p`; on anything else the
call raises (caught by the program as a warning), leaving the filesystem
unchanged. -/
def unlink (fs : FS) (p : FsPath) : FS :=
  if isFile fs p then eraseKey fs p else fs

/-- `shutil.rmtree(p)`: remove `p` and everything below it. -/
def rmtree (fs : FS) (p : FsPath) : FS :=
  dropWhere (fun q => pathStarts p q) fs

/-- Store node `n` at `p`, replacing any previous entry. -/
def insertE (fs : FS) (p : FsPath) (n : Node) : FS :=
  (p, n) :: dropWhere (fun q => decide (q = p)) fs

/-- `Path.mkdir(parents=True, exist_ok=True)`: succeeds if `p` is already a
directory; fails if `p` exists as a file; otherwise creates `p` (and,
recursively, its missing ancestors), failing if an existing non-directory
blocks the chain.  `none` models the raised exception (no change is made in
that case, matching CPython's recursive implementation). -/
def mkdirp (fs : FS) (p : FsPath) : Option FS :=
  if h : p = [] then none
  else if isDir fs p then some fs
  else if existsP fs p then none
  else if isDir fs p.dropLast then some (insertE fs p Node.dir)
  else if existsP fs p.dropLast then none
  else
    match mkdirp fs p.dropLast with
    | some fs1 => some (insertE fs1 p Node.dir)
    | none => none
  termination_by p.length
  decreasing_by
    have hp : 0 < p.length := List.length_pos.mpr h
    simp [List.length_dropLast]
    omega

/-- The write half of `shutil.copy2`: open `d` for writing and store the
content.  Opening fails if `d` is a directory or its parent is missing or
not a directory. -/
def copy2write (fs : FS) (d : FsPath) (c : String) : Option FS :=
  if isDir fs d then none
  else if isDir fs d.dropLast then some (insertE fs d (Node.file c))
  else none

/-- `shutil.copy2(src, dst)`: fails (`none`) unless `src` is a regular
file; if `dst` is an existing directory the file is copied *into* it under
`src`'s name; the write fails if the final target is a directory or its
parent is not a directory.  On failure nothing is changed. -/
def copy2 (fs : FS) (src dst : FsPath) : Option FS :=
  match contentOf fs src with
  | none => none
  | some c =>
    copy2write fs (if isDir fs dst then dst ++ [lastName src] else dst) c

/-- The warnings the maintenance procedure can log (`self.log_warn`). -/
inductive Warn where
  | noLogsFolder
  | noPluginsOldFolder
  | removeFailed
  | mkdirFailed
  | invalidDarkJar
  | copyFailed
  | skippedDarkBotPlugin
  | invalidPluginFolder
  deriving DecidableEq, Repr

/-- A filesystem together with the warnings logged so far. -/
abbrev St := FS × List Warn

/-- One iteration of a `for f in …: try: f.unlink() except: warn` loop. -/
def unlinkStep (st : St) (p : FsPath) : St :=
  if isFile st.1 p then (eraseKey st.1 p, st.2)
  else (st.1, st.2 ++ [Warn.removeFailed])

/-- Step 2 of `process_single_bot` (source lines 620–632): recursively
delete every `*.log` file under `<bot>/logs`, warning (not failing) when
the `logs` folder is absent. -/
def purgeLogs (bot : FsPath) (fs : FS) : St :=
  let logsDir := bot ++ ["logs"]
  if existsP fs logsDir && isDir fs logsDir then
    (globLogs fs logsDir).foldl unlinkStep (fs, [])
  else
    (fs, [Warn.noLogsFolder])

/-- Step 3 of `process_single_bot` (source lines 634–646): delete every
`*.jar` file directly under `<bot>/plugins/old`. -/
def purgeOldPlugins (bot : FsPath) (fs : FS) : St :=
  let oldDir := bot ++ ["plugins", "old"]
  if existsP fs oldDir && isDir fs oldDir then
    (globDirectJars fs oldDir).foldl unlinkStep (fs, [])
  else
    (fs, [Warn.noPluginsOldFolder])

/-- One iteration of the `plugins/updates` clearing loop (source lines
652–661): files are unlinked, directories removed recursively, anything
else is left alone. -/
def purgeChildStep (st : St) (p : FsPath) : St :=
  if isFile st.1 p then (eraseKey st.1 p, st.2)
  else if isDir st.1 p then (rmtree st.1 p, st.2)
  else (st.1, st.2)

/-- Step 4 of `process_single_bot` (source lines 648–668): empty
`<bot>/plugins/updates`, or create it (with parents) when absent. -/
def resetUpdates (bot : FsPath) (fs : FS) : St :=
  let upd := bot ++ ["plugins", "updates"]
  if existsP fs upd && isDir fs upd then
    (listChildren fs upd).foldl purgeChildStep (fs, [])
  else
    match mkdirp fs upd with
    | some fs1 => (fs1, [])
    | none => (fs, [Warn.mkdirFailed])

/-- Step 5a of `process_single_bot` (source lines 670–679): copy the
configured jar to `<bot>/DarkBot.jar` only when it exists, is a regular
file and is named exactly `DarkBot.jar`.  (The leading `darkjar_src and`
in the source is always truthy for a `Path` object.) -/
def copyDarkJar (bot : FsPath) (darkjarSrc : FsPath) (fs : FS) : St :=
  if existsP fs darkjarSrc && isFile fs darkjarSrc
      && decide (lastName darkjarSrc = "DarkBot.jar") then
    match copy2 fs darkjarSrc (bot ++ ["DarkBot.jar"]) with
    | some fs1 => (fs1, [])
    | none => (fs, [Warn.copyFailed])
  else
    (fs, [Warn.invalidDarkJar])

/-- One iteration of the plugin-copy loop (source lines 684–693): skip a
source file named `DarkBot.jar` with a warning, otherwise copy it into
`upd` under its own name. -/
def copyJarStep (upd : FsPath) (st : St) (p : FsPath) : St :=
  if decide (lastName p = "DarkBot.jar") then
    (st.1, st.2 ++ [Warn.skippedDarkBotPlugin])
  else
    match copy2 st.1 p (upd ++ [lastName p]) with
    | some fs1 => (fs1, st.2)
    | none => (st.1, st.2 ++ [Warn.copyFailed])

/-- Step 5b of `process_single_bot` (source lines 681–696): copy every
`*.jar` directly under the configured plugin source into
`<bot>/plugins/updates`. -/
def copyPlugins (bot : FsPath) (pluginSrc : FsPath) (fs : FS) : St :=
  let upd := bot ++ ["plugins", "updates"]
  if existsP fs pluginSrc && isDir fs pluginSrc then
    (globDirectJars fs pluginSrc).foldl (copyJarStep upd) (fs, [])
  else
    (fs, [Warn.invalidPluginFolder])

/-- The per-folder failure: `FileNotFoundError` raised when the bot folder
is missing or not a directory. -/
inductive BotErr where
  | missingFolder
  deriving DecidableEq, Repr

/-- The two externally configured source paths. -/
structure Config where
  darkjarSrc : FsPath
  pluginSrc : FsPath

/-- `process_single_bot` (source lines 616–696): validate the folder, then
run the five maintenance steps in order.  Returns the new filesystem, the
logged warnings, and the raised error (if any); on the validation error
nothing has been touched. -/
def process_single_bot (bot : FsPath) (cfg : Config) (fs : FS) :
    St × Option BotErr :=
  if existsP fs bot && isDir fs bot then
    let s1 := purgeLogs bot fs
    let s2 := purgeOldPlugins bot s1.1
    let s3 := resetUpdates bot s2.1
    let s4 := copyDarkJar bot cfg.darkjarSrc s3.1
    let s5 := copyPlugins bot cfg.pluginSrc s4.1
    ((s5.1, s1.2 ++ s2.2 ++ s3.2 ++ s4.2 ++ s5.2), none)
  else
    ((fs, []), some BotErr.missingFolder)

/-- The `logs` loop of `clear_single_bot` (source lines 730–742); the code
is a verbatim repetition of the corresponding loop of
`process_single_bot`. -/
def clearLogs (bot : FsPath) (fs : FS) : St :=
  let logsDir := bot ++ ["logs"]
  if existsP fs logsDir && isDir fs logsDir then
    (globLogs fs logsDir).foldl unlinkStep (fs, [])
  else
    (fs, [Warn.noLogsFolder])

/-- The `plugins/old` loop of `clear_single_bot` (source lines 744–756). -/
def clearOldPlugins (bot : FsPath) (fs : FS) : St :=
  let oldDir := bot ++ ["plugins", "old"]
  if existsP fs oldDir && isDir fs oldDir then
    (globDirectJars fs oldDir).foldl unlinkStep (fs, [])
  else
    (fs, [Warn.noPluginsOldFolder])

/-- `clear_single_bot` (source lines 726–756): the log-only variant —
validation, log purge, stale-plugin purge. -/
def clear_single_bot (bot : FsPath) (fs : FS) : St × Option BotErr :=
  if existsP fs bot && isDir fs bot then
    let s1 := clearLogs bot fs
    let s2 := clearOldPlugins bot s1.1
    ((s2.1, s1.2 ++ s2.2), none)
  else
    ((fs, []), some BotErr.missingFolder)

/-- `is_bot_folder` (source lines 80–88): directory check, then a
`logs`/`plugins` heuristic whose both outcomes are `True`. -/
def is_bot_folder (fs : FS) (p : FsPath) : Bool :=
  if !(isDir fs p) then false
  else if existsP fs (p ++ ["logs"]) || existsP fs (p ++ ["plugins"]) then true
  else true

/-- ASCII lowercasing, the model of Python's `str.lower` on folder names. -/
def lowerStr (s : String) : String := String.mk (s.data.map Char.toLower)

/-- The sort key of `refresh_bot_list`: `p.name.lower()`. -/
def nameKey (p : FsPath) : String := lowerStr (lastName p)

/-- `refresh_bot_list` (source lines 415–425): with no configured root or a
non-existing root, log a warning and show nothing; otherwise list the
root's child directories sorted by lowercased name and keep those accepted
by `is_bot_folder`.  `Except.error` models the uncaught
`NotADirectoryError` that `iterdir()` raises when the root exists but is
not a directory.  The returned `Bool` is true when the warning was
logged. -/
def refresh_bot_list (fs : FS) (botsRoot : Option FsPath) :
    Except Unit (List FsPath × Bool) :=
  match botsRoot with
  | none => Except.ok ([], true)
  | some root =>
    if !(existsP fs root) then Except.ok ([], true)
    else if !(isDir fs root) then Except.error ()
    else
      let children :=
        ((listChildren fs root).filter (fun p => isDir fs p)).mergeSort
          (fun a b => decide (nameKey a ≤ nameKey b))
      Except.ok (children.filter (fun p => is_bot_folder fs p), false)

/-- The two widgets the background worker touches. -/
inductive Widget where
  | progressBar
  | logText
  deriving DecidableEq, Repr

/-- One widget update performed by the background worker.  `viaAfter`
records whether the update was marshaled onto the interface thread through
Tk's event queue (`root.after(...)`); the source contains no `after` call —
the worker mutates the widgets directly — so every write it performs is
recorded with `viaAfter = false`. -/
structure UIWrite where
  target : Widget
  viaAfter : Bool
  deriving DecidableEq, Repr

/-- The log messages `_run_worker` can produce. -/
inductive LogLine where
  | opStart (total : Nat)
  | processing (idx total : Nat) (p : FsPath)
  | warnLine (w : Warn)
  | completed (idx total : Nat) (p : FsPath)
  | errorMsg (idx total : Nat) (p : FsPath)
  | tracebackMsg
  | summarySuccess (total : Nat)
  | summaryErrors (errs : Nat)
  deriving DecidableEq, Repr

/-- The worker's view of the world: the filesystem plus the widget state it
mutates (log text, progress bar) and the writes it performed. -/
structure WorkerState where
  fs : FS
  logLines : List LogLine
  uiWrites : List UIWrite
  progressValue : Nat
  progressMax : Nat
  errors : Nat
  deriving Repr

/-- `self._log` (source lines 527–531): appends a line by calling
`configure`/`insert`/`see` on the text widget directly from the calling
(worker) thread. -/
def logLine (st : WorkerState) (l : LogLine) : WorkerState :=
  { st with
    logLines := st.logLines ++ [l]
    uiWrites := st.uiWrites ++ [UIWrite.mk Widget.logText false] }

/-- `self.progress["value"] = v` executed on the worker thread. -/
def setProgress (st : WorkerState) (v : Nat) : WorkerState :=
  { st with
    progressValue := v
    uiWrites := st.uiWrites ++ [UIWrite.mk Widget.progressBar false] }

/-- `self.progress["maximum"] = v` executed on the worker thread. -/
def setProgressMax (st : WorkerState) (v : Nat) : WorkerState :=
  { st with
    progressMax := v
    uiWrites := st.uiWrites ++ [UIWrite.mk Widget.progressBar false] }

/-- One iteration of the `for idx, bp in enumerate(bot_paths, start=1)`
loop of `_run_worker` (source lines 597–608): log the processing line, run
the per-folder procedure, convert a raised error into a logged message and
an error tally, and update the progress bar in the `finally` block. -/
def runWorkerStep (cfg : Config) (total : Nat) (st : WorkerState)
    (ip : Nat × FsPath) : WorkerState :=
  let st1 := logLine st (LogLine.processing ip.1 total ip.2)
  let r := process_single_bot ip.2 cfg st1.fs
  let st2 := r.1.2.foldl (fun s w => logLine s (LogLine.warnLine w)) st1
  let st3 :=
    match r.2 with
    | none =>
        logLine { st2 with fs := r.1.1 } (LogLine.completed ip.1 total ip.2)
    | some _ =>
        logLine (logLine { st2 with fs := r.1.1, errors := st2.errors + 1 }
          (LogLine.errorMsg ip.1 total ip.2)) LogLine.tracebackMsg
  setProgress st3 ip.1

/-- `_run_worker` (source lines 588–614): progress reset, the start
message, the per-folder loop, and the final summary. -/
def run_worker (cfg : Config) (botPaths : List FsPath) (fs : FS) :
    WorkerState :=
  let total := botPaths.length
  let st0 : WorkerState :=
    { fs := fs, logLines := [], uiWrites := [], progressValue := 0,
      progressMax := 0, errors := 0 }
  let st1 := setProgressMax (setProgress st0 0) total
  let st2 := logLine st1 (LogLine.opStart total)
  let st3 := (List.zip (List.range' 1 total) botPaths).foldl
    (runWorkerStep cfg total) st2
  if st3.errors = 0 then logLine st3 (LogLine.summarySuccess total)
  else logLine st3 (LogLine.summaryErrors st3.errors)

/-- The path announced by a `Processing` log line, if the line is one. -/
def processingOf : LogLine → Option FsPath
  | LogLine.processing _ _ p => some p
  | _ => none

/-- Recognize a per-folder error message in the log. -/
def isErrorLine : LogLine → Bool
  | LogLine.errorMsg _ _ _ => true
  | _ => false

/-- A small sample disk used to exercise the theorems on concrete data. -/
def sampleFS : FS :=
  [ ([], Node.dir),
    (["bots"], Node.dir),
    (["bots", "bot1"], Node.dir),
    (["bots", "bot1", "logs"], Node.dir),
    (["bots", "bot1", "logs", "x.log"], Node.file "L"),
    (["bots", "bot1", "plugins"], Node.dir),
    (["bots", "bot1", "plugins", "old"], Node.dir),
    (["bots", "bot1", "plugins", "old", "p.jar"], Node.file "OLD"),
    (["bots", "bot1", "plugins", "updates"], Node.dir),
    (["bots", "bot1", "plugins", "updates", "stale.jar"], Node.file "S"),
    (["src"], Node.dir),
    (["src", "DarkBot.jar"], Node.file "NEWJAR"),
    (["plugsrc"], Node.dir),
    (["plugsrc", "a.jar"], Node.file "A"),
    (["plugsrc", "DarkBot.jar"], Node.file "D") ]

/-- The sample configuration used by the witnesses. -/
def sampleCfg : Config := ⟨["src", "DarkBot.jar"], ["plugsrc"]⟩

/-- The sample bot folder used by the witnesses. -/
def sampleBot : FsPath := ["bots", "bot1"]

/-- A disk whose configured bots root is a regular file. -/
def fsRootFile : FS := [([], Node.dir), (["root"], Node.file "x")]

/-- The paths removed by the `plugins/updates` clearing loop when run over
the child list `L`: the file children themselves, and everything at or
below a directory child. -/
def purgedBelow (fs : FS) (L : List FsPath) (q : FsPath) : Prop :=
  ∃ c ∈ L, (isFile fs c = true ∧ q = c) ∨
    (isDir fs c = true ∧ pathStarts c q = true)

instance (fs : FS) (L : List FsPath) (q : FsPath) :
    Decidable (purgedBelow fs L q) := by
  unfold purgedBelow
  infer_instance

/-- The positions written by the plugin-copy loop (step 5b): direct
children of `upd` named like a non-`DarkBot.jar` source `*.jar` file. -/
def copiedHere (fs : FS) (src upd q : FsPath) : Prop :=
  q.dropLast = upd ∧ q ≠ [] ∧ strEnds ".jar" (lastName q) = true ∧
    lastName q ≠ "DarkBot.jar" ∧ isFile fs (src ++ [lastName q]) = true

instance (fs : FS) (src upd q : FsPath) : Decidable (copiedHere fs src upd q) := by
  unfold copiedHere
  infer_instance

/-- Well-formedness of a filesystem: every strict ancestor of a stored
path is itself stored, as a directory.  Real on-disk states have this
shape. -/
def WF (fs : FS) : Prop :=
  ∀ p, lookup fs p ≠ none → ∀ q, pathStarts q p = true → q ≠ p →
    lookup fs q = some Node.dir

/-- `fs'` differs from `fs` only by the removal of some regular files. -/
def DelOnly (fs fs' : FS) : Prop :=
  ∀ q, lookup fs' q = lookup fs q ∨
    (lookup fs' q = none ∧ isFile fs q = true)

/-- Executable well-formedness check, used to discharge `WF` on concrete
filesystems. -/
def wfB (fs : FS) : Bool :=
  (keys fs).all (fun p =>
    (List.range p.length).all (fun i => isDir fs (p.take i)))

/-! ### Basic lemmas about paths and lookups -/

theorem pathStarts_iff (a b : FsPath) :
    pathStarts a b = true ↔ ∃ t, b = a ++ t := by
  induction a generalizing b with
  | nil => simp [pathStarts]
  | cons x xs ih =>
    cases b with
    | nil =>
      simp [pathStarts]
    | cons y ys =>
      simp only [pathStarts, Bool.and_eq_true, beq_iff_eq, ih]
      constructor
      · rintro ⟨rfl, t, rfl⟩
        exact ⟨t, rfl⟩
      · rintro ⟨t, h⟩
        cases h
        exact ⟨rfl, t, rfl⟩

theorem pathStarts_refl (p : FsPath) : pathStarts p p = true := by
  rw [pathStarts_iff]
  exact ⟨[], by simp⟩

theorem pathStarts_append (u w : FsPath) : pathStarts u (u ++ w) = true := by
  rw [pathStarts_iff]
  exact ⟨w, rfl⟩

theorem pathStarts_cancel (u v w : FsPath) :
    pathStarts (u ++ v) (u ++ w) = pathStarts v w := by
  induction u with
  | nil => simp
  | cons x xs ih => simpa [pathStarts] using ih

theorem pathStarts_length_le {a b : FsPath} (h : pathStarts a b = true) :
    a.length ≤ b.length := by
  rcases (pathStarts_iff a b).1 h with ⟨t, rfl⟩
  simp

theorem pathStarts_eq_of_length {a b : FsPath} (h : pathStarts a b = true)
    (hl : b.length ≤ a.length) : a = b := by
  rcases (pathStarts_iff a b).1 h with ⟨t, rfl⟩
  have : t = [] := by
    rcases t with _ | ⟨c, cs⟩
    · rfl
    · exfalso
      simp at hl
  simp [this]

theorem pathStarts_trans {a b c : FsPath} (h1 : pathStarts a b = true)
    (h2 : pathStarts b c = true) : pathStarts a c = true := by
  rcases (pathStarts_iff a b).1 h1 with ⟨t, rfl⟩
  rcases (pathStarts_iff _ c).1 h2 with ⟨s, rfl⟩
  rw [pathStarts_iff]
  exact ⟨t ++ s, by simp⟩

theorem strictUnder_iff (a b : FsPath) :
    strictUnder a b = true ↔ pathStarts a b = true ∧ a.length < b.length := by
  simp [strictUnder]

theorem concat_eq_concat_iff (u v : FsPath) (x y : String) :
    u ++ [x] = v ++ [y] ↔ u = v ∧ x = y := by
  constructor
  · intro h
    have hu : u = v := by
      have := congrArg List.dropLast h
      simpa using this
    subst hu
    have := congrArg (fun l => List.getLastD l "") h
    simp at this
    exact ⟨rfl, this⟩
  · rintro ⟨rfl, rfl⟩
    rfl

theorem lastName_concat (u : FsPath) (x : String) :
    lastName (u ++ [x]) = x := by
  simp [lastName]

theorem dropLast_concat' (u : FsPath) (x : String) :
    (u ++ [x]).dropLast = u := by
  simp

theorem eq_dropLast_concat_lastName {p : FsPath} (h : p ≠ []) :
    p = p.dropLast ++ [lastName p] := by
  conv_lhs => rw [← List.dropLast_append_getLast h]
  simp [lastName, List.getLastD_eq_getLast?, List.getLast?_eq_getLast _ h]

theorem isDirectChild_iff (base p : FsPath) :
    isDirectChild base p = true ↔ ∃ n, p = base ++ [n] := by
  simp only [isDirectChild, decide_eq_true_eq]
  constructor
  · rintro ⟨h1, h2⟩
    exact ⟨lastName p, by rw [← h1]; exact eq_dropLast_concat_lastName h2⟩
  · rintro ⟨n, rfl⟩
    simp

theorem strictUnder_concat (u : FsPath) (x : String) :
    strictUnder u (u ++ [x]) = true := by
  rw [strictUnder_iff]
  exact ⟨pathStarts_append u [x], by simp⟩

theorem lookup_dropWhere (f : FsPath → Bool) (fs : FS) (q : FsPath) :
    lookup (dropWhere f fs) q = if f q then none else lookup fs q := by
  induction fs with
  | nil => cases h : f q <;> simp [dropWhere, h, lookup]
  | cons e rest ih =>
    simp only [dropWhere, List.filter_cons] at ih ⊢
    by_cases hq : e.1 = q
    · have hfe : f e.1 = f q := by rw [hq]
      cases hfq : f q
      · simp [hfe, hfq, lookup, hq]
      · simp [hfe, hfq, ih]
    · cases hf : f e.1 <;> simp [hf, lookup, hq, ih]

theorem lookup_eraseKey (fs : FS) (p q : FsPath) :
    lookup (eraseKey fs p) q = if q = p then none else lookup fs q := by
  simp [eraseKey, lookup_dropWhere]

theorem lookup_insertE (fs : FS) (p : FsPath) (n : Node) (q : FsPath) :
    lookup (insertE fs p n) q = if q = p then some n else lookup fs q := by
  by_cases h : q = p
  · simp [insertE, lookup, h]
  · simp only [insertE, lookup]
    rw [if_neg (fun hh => h hh.symm), if_neg h, lookup_dropWhere]
    simp [h]

theorem lookup_rmtree (fs : FS) (p q : FsPath) :
    lookup (rmtree fs p) q = if pathStarts p q then none else lookup fs q := by
  simp [rmtree, lookup_dropWhere]

theorem lookup_unlink (fs : FS) (p q : FsPath) :
    lookup (unlink fs p) q =
      if q = p ∧ isFile fs p = true then none else lookup fs q := by
  unfold unlink
  by_cases hf : isFile fs p = true
  · simp [hf, lookup_eraseKey]
  · simp [hf]

theorem lookup_some_mem_keys {fs : FS} {p : FsPath} {n : Node}
    (h : lookup fs p = some n) : p ∈ keys fs := by
  induction fs with
  | nil => simp [lookup] at h
  | cons e rest ih =>
    simp only [lookup] at h
    by_cases he : e.1 = p
    · simp only [keys, List.map_cons, List.mem_cons]
      exact Or.inl he.symm
    · rw [if_neg he] at h
      simp only [keys, List.map_cons, List.mem_cons]
      exact Or.inr (ih h)

theorem isDir_lookup (fs : FS) (p : FsPath) :
    isDir fs p = true ↔ lookup fs p = some Node.dir := by
  unfold isDir
  cases lookup fs p with
  | none => simp
  | some n => cases n <;> simp

theorem isFile_lookup (fs : FS) (p : FsPath) :
    isFile fs p = true ↔ ∃ c, lookup fs p = some (Node.file c) := by
  unfold isFile
  cases lookup fs p with
  | none => simp
  | some n => cases n <;> simp

theorem existsP_lookup (fs : FS) (p : FsPath) :
    existsP fs p = true ↔ lookup fs p ≠ none := by
  unfold existsP
  cases lookup fs p <;> simp

theorem contentOf_lookup (fs : FS) (p : FsPath) (c : String) :
    contentOf fs p = some c ↔ lookup fs p = some (Node.file c) := by
  unfold contentOf
  cases lookup fs p with
  | none => simp
  | some n => cases n <;> simp

theorem mem_keys_of_isFile {fs : FS} {p : FsPath} (h : isFile fs p = true) :
    p ∈ keys fs := by
  rcases (isFile_lookup fs p).1 h with ⟨c, hc⟩
  exact lookup_some_mem_keys hc

theorem mem_keys_of_isDir {fs : FS} {p : FsPath} (h : isDir fs p = true) :
    p ∈ keys fs :=
  lookup_some_mem_keys ((isDir_lookup fs p).1 h)

theorem isFile_congr {fs fs' : FS} {q : FsPath}
    (h : lookup fs q = lookup fs' q) : isFile fs q = isFile fs' q := by
  simp [isFile, h]

theorem isDir_congr {fs fs' : FS} {q : FsPath}
    (h : lookup fs q = lookup fs' q) : isDir fs q = isDir fs' q := by
  simp [isDir, h]

theorem existsP_congr {fs fs' : FS} {q : FsPath}
    (h : lookup fs q = lookup fs' q) : existsP fs q = existsP fs' q := by
  simp [existsP, h]

theorem contentOf_congr {fs fs' : FS} {q : FsPath}
    (h : lookup fs q = lookup fs' q) : contentOf fs q = contentOf fs' q := by
  simp [contentOf, h]

theorem existsP_and_isDir (fs : FS) (p : FsPath) :
    (existsP fs p && isDir fs p) = isDir fs p := by
  unfold existsP isDir
  cases lookup fs p with
  | none => simp
  | some n => cases n <;> simp

theorem existsP_and_isFile (fs : FS) (p : FsPath) :
    (existsP fs p && isFile fs p) = isFile fs p := by
  unfold existsP isFile
  cases lookup fs p with
  | none => simp
  | some n => cases n <;> simp

theorem isFile_eq_false_of_isDir {fs : FS} {p : FsPath}
    (h : isDir fs p = true) : isFile fs p = false := by
  have hd := (isDir_lookup fs p).1 h
  unfold isFile
  rw [hd]

theorem isDir_eq_false_of_isFile {fs : FS} {p : FsPath}
    (h : isFile fs p = true) : isDir fs p = false := by
  rcases (isFile_lookup fs p).1 h with ⟨c, hc⟩
  unfold isDir
  rw [hc]

theorem contentOf_isSome_of_isFile {fs : FS} {p : FsPath}
    (h : isFile fs p = true) : ∃ c, contentOf fs p = some c := by
  rcases (isFile_lookup fs p).1 h with ⟨c, hc⟩
  exact ⟨c, (contentOf_lookup fs p c).2 hc⟩

theorem isFile_of_contentOf {fs : FS} {p : FsPath} {c : String}
    (h : contentOf fs p = some c) : isFile fs p = true :=
  (isFile_lookup fs p).2 ⟨c, (contentOf_lookup fs p c).1 h⟩

/-! ### The deletion loops -/

theorem foldl_unlinkStep_fst (L : List FsPath) (fs : FS) (w : List Warn)
    (q : FsPath) :
    lookup (L.foldl unlinkStep (fs, w)).1 q =
      if q ∈ L ∧ isFile fs q = true then none else lookup fs q := by
  induction L generalizing fs w with
  | nil => simp
  | cons a as ih =>
    simp only [List.foldl_cons]
    by_cases hfa : isFile fs a = true
    · have hstep : unlinkStep (fs, w) a = (eraseKey fs a, w) := by
        simp [unlinkStep, hfa]
      rw [hstep, ih]
      by_cases hqa : q = a
      · subst hqa
        have h2 : lookup (eraseKey fs q) q = none := by
          simp [lookup_eraseKey]
        have h1 : isFile (eraseKey fs q) q = false := by
          simp [isFile, h2]
        simp [h1, h2, hfa]
      · have h3 : lookup (eraseKey fs a) q = lookup fs q := by
          simp [lookup_eraseKey, hqa]
        have h4 : isFile (eraseKey fs a) q = isFile fs q := isFile_congr h3
        rw [h3, h4]
        simp [List.mem_cons, hqa]
    · have hstep : unlinkStep (fs, w) a = (fs, w ++ [Warn.removeFailed]) := by
        simp [unlinkStep, hfa]
      rw [hstep, ih]
      by_cases hqa : q = a
      · subst hqa
        simp [hfa]
      · simp [List.mem_cons, hqa]

theorem purgeLogs_fst_lookup (bot : FsPath) (fs : FS) (q : FsPath) :
    lookup (purgeLogs bot fs).1 q =
      if isDir fs (bot ++ ["logs"]) = true ∧
          strictUnder (bot ++ ["logs"]) q = true ∧
          strEnds ".log" (lastName q) = true ∧ isFile fs q = true
      then none else lookup fs q := by
  simp only [purgeLogs, existsP_and_isDir]
  by_cases hd : isDir fs (bot ++ ["logs"]) = true
  · rw [if_pos hd, foldl_unlinkStep_fst]
    have hcond : (q ∈ globLogs fs (bot ++ ["logs"]) ∧ isFile fs q = true) ↔
        (isDir fs (bot ++ ["logs"]) = true ∧
          strictUnder (bot ++ ["logs"]) q = true ∧
          strEnds ".log" (lastName q) = true ∧ isFile fs q = true) := by
      simp only [globLogs, List.mem_filter, Bool.and_eq_true]
      constructor
      · rintro ⟨⟨hk, hs, he⟩, hf⟩
        exact ⟨hd, hs, he, hf⟩
      · rintro ⟨_, hs, he, hf⟩
        exact ⟨⟨mem_keys_of_isFile hf, hs, he⟩, hf⟩
    simp only [hcond]
  · rw [if_neg hd]
    have : ¬(isDir fs (bot ++ ["logs"]) = true ∧
        strictUnder (bot ++ ["logs"]) q = true ∧
        strEnds ".log" (lastName q) = true ∧ isFile fs q = true) := by
      intro hc
      exact hd hc.1
    rw [if_neg this]

theorem purgeOldPlugins_fst_lookup (bot : FsPath) (fs : FS) (q : FsPath) :
    lookup (purgeOldPlugins bot fs).1 q =
      if isDir fs (bot ++ ["plugins", "old"]) = true ∧
          isDirectChild (bot ++ ["plugins", "old"]) q = true ∧
          strEnds ".jar" (lastName q) = true ∧ isFile fs q = true
      then none else lookup fs q := by
  simp only [purgeOldPlugins, existsP_and_isDir]
  by_cases hd : isDir fs (bot ++ ["plugins", "old"]) = true
  · rw [if_pos hd, foldl_unlinkStep_fst]
    have hcond : (q ∈ globDirectJars fs (bot ++ ["plugins", "old"]) ∧
          isFile fs q = true) ↔
        (isDir fs (bot ++ ["plugins", "old"]) = true ∧
          isDirectChild (bot ++ ["plugins", "old"]) q = true ∧
          strEnds ".jar" (lastName q) = true ∧ isFile fs q = true) := by
      simp only [globDirectJars, List.mem_filter, Bool.and_eq_true]
      constructor
      · rintro ⟨⟨hk, hs, he⟩, hf⟩
        exact ⟨hd, hs, he, hf⟩
      · rintro ⟨_, hs, he, hf⟩
        exact ⟨⟨mem_keys_of_isFile hf, hs, he⟩, hf⟩
    simp only [hcond]
  · rw [if_neg hd]
    have : ¬(isDir fs (bot ++ ["plugins", "old"]) = true ∧
        isDirectChild (bot ++ ["plugins", "old"]) q = true ∧
        strEnds ".jar" (lastName q) = true ∧ isFile fs q = true) := by
      intro hc
      exact hd hc.1
    rw [if_neg this]

theorem purgedBelow_congr {fs fs' : FS} {L : List FsPath} {q : FsPath}
    (h : ∀ c ∈ L, lookup fs c = lookup fs' c) :
    purgedBelow fs L q ↔ purgedBelow fs' L q := by
  unfold purgedBelow
  constructor
  · rintro ⟨c, hc, hP⟩
    exact ⟨c, hc, by rwa [isFile_congr (h c hc), isDir_congr (h c hc)] at hP⟩
  · rintro ⟨c, hc, hP⟩
    exact ⟨c, hc, by rwa [isFile_congr (h c hc), isDir_congr (h c hc)]⟩

theorem foldl_purgeChildStep_fst (L : List FsPath) (fs : FS) (w : List Warn)
    (q : FsPath)
    (hsib : ∀ a ∈ L, ∀ b ∈ L, a ≠ b → pathStarts a b = false) :
    lookup (L.foldl purgeChildStep (fs, w)).1 q =
      if purgedBelow fs L q then none else lookup fs q := by
  induction L generalizing fs w with
  | nil => simp [purgedBelow]
  | cons a as ih =>
    have hsib' : ∀ x ∈ as, ∀ y ∈ as, x ≠ y → pathStarts x y = false := by
      intro x hx y hy hxy
      exact hsib x (List.mem_cons_of_mem _ hx) y (List.mem_cons_of_mem _ hy) hxy
    simp only [List.foldl_cons]
    by_cases hf : isFile fs a = true
    · have hstep : purgeChildStep (fs, w) a = (eraseKey fs a, w) := by
        simp [purgeChildStep, hf]
      rw [hstep, ih _ _ hsib']
      have hda : isDir fs a = false := isDir_eq_false_of_isFile hf
      by_cases hqa : q = a
      · subst hqa
        have h2 : lookup (eraseKey fs q) q = none := by simp [lookup_eraseKey]
        have hex : purgedBelow fs (q :: as) q :=
          ⟨q, List.mem_cons_self _ _, Or.inl ⟨hf, rfl⟩⟩
        rw [if_pos hex]
        by_cases hex1 : purgedBelow (eraseKey fs q) as q
        · rw [if_pos hex1]
        · rw [if_neg hex1]
          exact h2
      · have h3 : lookup (eraseKey fs a) q = lookup fs q := by
          simp [lookup_eraseKey, hqa]
        rw [h3]
        have hiff : purgedBelow (eraseKey fs a) as q ↔
            purgedBelow fs (a :: as) q := by
          unfold purgedBelow
          constructor
          · rintro ⟨c, hc, hP⟩
            by_cases hca : c = a
            · subst hca
              have hnone : lookup (eraseKey fs c) c = none := by
                simp [lookup_eraseKey]
              exfalso
              rcases hP with ⟨h5, _⟩ | ⟨h5, _⟩
              · rw [isFile_lookup] at h5
                rcases h5 with ⟨cc, hcc⟩
                rw [hnone] at hcc
                cases hcc
              · rw [isDir_lookup] at h5
                rw [hnone] at h5
                cases h5
            · have hl : lookup (eraseKey fs a) c = lookup fs c := by
                simp [lookup_eraseKey, hca]
              refine ⟨c, List.mem_cons_of_mem _ hc, ?_⟩
              rwa [isFile_congr hl, isDir_congr hl] at hP
          · rintro ⟨c, hc, hP⟩
            have hPa : c = a → False := by
              intro hca
              subst hca
              rcases hP with ⟨_, h6⟩ | ⟨h6, _⟩
              · exact hqa h6
              · rw [hda] at h6
                cases h6
            rcases List.mem_cons.1 hc with rfl | hc'
            · exact absurd rfl hPa
            · have hca : c ≠ a := fun h => hPa h
              have hl : lookup (eraseKey fs a) c = lookup fs c := by
                simp [lookup_eraseKey, hca]
              exact ⟨c, hc', by rwa [isFile_congr hl, isDir_congr hl]⟩
        simp only [hiff]
    · by_cases hd : isDir fs a = true
      · have hstep : purgeChildStep (fs, w) a = (rmtree fs a, w) := by
          simp [purgeChildStep, hf, hd]
        rw [hstep, ih _ _ hsib']
        by_cases hpq : pathStarts a q = true
        · have hex : purgedBelow fs (a :: as) q :=
            ⟨a, List.mem_cons_self _ _, Or.inr ⟨hd, hpq⟩⟩
          rw [if_pos hex]
          have h2 : lookup (rmtree fs a) q = none := by
            simp [lookup_rmtree, hpq]
          by_cases hex1 : purgedBelow (rmtree fs a) as q
          · rw [if_pos hex1]
          · rw [if_neg hex1]
            exact h2
        · have h3 : lookup (rmtree fs a) q = lookup fs q := by
            simp only [lookup_rmtree]
            rw [if_neg (by simpa using hpq)]
          rw [h3]
          have hiff : purgedBelow (rmtree fs a) as q ↔
              purgedBelow fs (a :: as) q := by
            unfold purgedBelow
            constructor
            · rintro ⟨c, hc, hP⟩
              by_cases hca : c = a
              · subst hca
                have hnone : lookup (rmtree fs c) c = none := by
                  simp [lookup_rmtree, pathStarts_refl]
                exfalso
                rcases hP with ⟨h5, _⟩ | ⟨h5, _⟩
                · rw [isFile_lookup] at h5
                  rcases h5 with ⟨cc, hcc⟩
                  rw [hnone] at hcc
                  cases hcc
                · rw [isDir_lookup] at h5
                  rw [hnone] at h5
                  cases h5
              · have hps : pathStarts a c = false :=
                  hsib a (List.mem_cons_self _ _) c (List.mem_cons_of_mem _ hc)
                    (fun h => hca h.symm)
                have hl : lookup (rmtree fs a) c = lookup fs c := by
                  simp only [lookup_rmtree]
                  rw [if_neg (by simp [hps])]
                refine ⟨c, List.mem_cons_of_mem _ hc, ?_⟩
                rwa [isFile_congr hl, isDir_congr hl] at hP
            · rintro ⟨c, hc, hP⟩
              have hPa : c = a → False := by
                intro hca
                subst hca
                rcases hP with ⟨h6, _⟩ | ⟨_, h6⟩
                · exact hf h6
                · exact hpq h6
              rcases List.mem_cons.1 hc with rfl | hc'
              · exact absurd rfl hPa
              · have hca : c ≠ a := fun h => hPa h
                have hps : pathStarts a c = false :=
                  hsib a (List.mem_cons_self _ _) c (List.mem_cons_of_mem _ hc')
                    (fun h => hca h.symm)
                have hl : lookup (rmtree fs a) c = lookup fs c := by
                  simp only [lookup_rmtree]
                  rw [if_neg (by simp [hps])]
                exact ⟨c, hc', by rwa [isFile_congr hl, isDir_congr hl]⟩
          simp only [hiff]
      · have hstep : purgeChildStep (fs, w) a = (fs, w) := by
          simp [purgeChildStep, hf, hd]
        rw [hstep, ih _ _ hsib']
        have hiff : purgedBelow fs as q ↔ purgedBelow fs (a :: as) q := by
          unfold purgedBelow
          constructor
          · rintro ⟨c, hc, hP⟩
            exact ⟨c, List.mem_cons_of_mem _ hc, hP⟩
          · rintro ⟨c, hc, hP⟩
            have hPa : c = a → False := by
              intro hca
              subst hca
              rcases hP with ⟨h6, _⟩ | ⟨h6, _⟩
              · exact hf h6
              · exact hd h6
            rcases List.mem_cons.1 hc with rfl | hc'
            · exact absurd rfl hPa
            · exact ⟨c, hc', hP⟩
        simp only [hiff]

/-! ### `mkdir(parents=True, exist_ok=True)` and step 4 -/

theorem lookup_none_iff (fs : FS) (p : FsPath) :
    lookup fs p = none ↔ (isDir fs p = false ∧ isFile fs p = false) := by
  unfold isDir isFile
  cases lookup fs p with
  | none => simp
  | some n => cases n <;> simp

theorem mkdirp_of_isDir {fs : FS} {p : FsPath} (hp : p ≠ [])
    (h : isDir fs p = true) : mkdirp fs p = some fs := by
  rw [mkdirp]
  simp [hp, h]

theorem mkdirp_of_file {fs : FS} {p : FsPath} (hp : p ≠ [])
    (hnd : isDir fs p = false) (he : existsP fs p = true) :
    mkdirp fs p = none := by
  rw [mkdirp]
  simp [hp, hnd, he]

theorem mkdirp_create {fs : FS} {p : FsPath} (hp : p ≠ [])
    (habs : lookup fs p = none) (hpar : isDir fs p.dropLast = true) :
    mkdirp fs p = some (insertE fs p Node.dir) := by
  have h1 : isDir fs p = false := ((lookup_none_iff fs p).1 habs).1
  have h2 : existsP fs p = false := by simp [existsP, habs]
  rw [mkdirp]
  simp [hp, h1, h2, hpar]

theorem mkdirp_parent_blocked {fs : FS} {p : FsPath} (hp : p ≠ [])
    (habs : lookup fs p = none) (hpar : isDir fs p.dropLast = false)
    (hpe : existsP fs p.dropLast = true) : mkdirp fs p = none := by
  have h1 : isDir fs p = false := ((lookup_none_iff fs p).1 habs).1
  have h2 : existsP fs p = false := by simp [existsP, habs]
  rw [mkdirp]
  simp [hp, h1, h2, hpar, hpe]

theorem mkdirp_recurse {fs : FS} {p : FsPath} (hp : p ≠ [])
    (habs : lookup fs p = none) (hpabs : lookup fs p.dropLast = none) :
    mkdirp fs p =
      (mkdirp fs p.dropLast).map (fun fs1 => insertE fs1 p Node.dir) := by
  have h1 : isDir fs p = false := ((lookup_none_iff fs p).1 habs).1
  have h2 : existsP fs p = false := by simp [existsP, habs]
  have h3 : isDir fs p.dropLast = false := ((lookup_none_iff fs _).1 hpabs).1
  have h4 : existsP fs p.dropLast = false := by simp [existsP, hpabs]
  rw [mkdirp]
  simp only [hp, h1, h2, h3, h4]
  cases mkdirp fs p.dropLast <;> simp

theorem listChildren_sib (fs : FS) (base : FsPath) :
    ∀ a ∈ listChildren fs base, ∀ b ∈ listChildren fs base, a ≠ b →
      pathStarts a b = false := by
  intro a ha b hb hab
  have ha' := (List.mem_filter.1 ha).2
  have hb' := (List.mem_filter.1 hb).2
  rcases (isDirectChild_iff base a).1 ha' with ⟨x, rfl⟩
  rcases (isDirectChild_iff base b).1 hb' with ⟨y, rfl⟩
  cases hps : pathStarts (base ++ [x]) (base ++ [y])
  · rfl
  · exact absurd (pathStarts_eq_of_length hps (by simp)) hab

theorem mem_listChildren_iff (fs : FS) (base q : FsPath) :
    q ∈ listChildren fs base ↔ q ∈ keys fs ∧ ∃ n, q = base ++ [n] := by
  simp only [listChildren, List.mem_filter, isDirectChild_iff]

theorem resetUpdates_fst_lookup (bot : FsPath) (fs : FS) (q : FsPath)
    (hbot : isDir fs bot = true) :
    lookup (resetUpdates bot fs).1 q =
      (if isDir fs (bot ++ ["plugins", "updates"]) = true then
        (if purgedBelow fs (listChildren fs (bot ++ ["plugins", "updates"])) q
          then none else lookup fs q)
      else if isFile fs (bot ++ ["plugins", "updates"]) = true then lookup fs q
      else if isDir fs (bot ++ ["plugins"]) = true then
        (if q = bot ++ ["plugins", "updates"] then some Node.dir
          else lookup fs q)
      else if isFile fs (bot ++ ["plugins"]) = true then lookup fs q
      else
        (if q = bot ++ ["plugins", "updates"] then some Node.dir
          else if q = bot ++ ["plugins"] then some Node.dir
          else lookup fs q)) := by
  have hU : bot ++ ["plugins", "updates"] =
      (bot ++ ["plugins"]) ++ ["updates"] := by simp
  have hUne : bot ++ ["plugins", "updates"] ≠ [] := by simp
  have hPne : bot ++ ["plugins"] ≠ [] := by simp
  have hUdrop : (bot ++ ["plugins", "updates"]).dropLast = bot ++ ["plugins"] := by
    rw [hU, dropLast_concat']
  have hPdrop : (bot ++ ["plugins"]).dropLast = bot := dropLast_concat' bot _
  simp only [resetUpdates, existsP_and_isDir]
  by_cases hUd : isDir fs (bot ++ ["plugins", "updates"]) = true
  · rw [if_pos hUd, if_pos hUd,
      foldl_purgeChildStep_fst _ _ _ _ (listChildren_sib fs _)]
  · rw [if_neg hUd, if_neg hUd]
    replace hUd : isDir fs (bot ++ ["plugins", "updates"]) = false := by
      cases h : isDir fs (bot ++ ["plugins", "updates"])
      · rfl
      · exact absurd h hUd
    by_cases hUf : isFile fs (bot ++ ["plugins", "updates"]) = true
    · have hm : mkdirp fs (bot ++ ["plugins", "updates"]) = none :=
        mkdirp_of_file hUne hUd
          (by rcases (isFile_lookup fs _).1 hUf with ⟨c, hc⟩; simp [existsP, hc])
      rw [hm, if_pos hUf]
    · replace hUf : isFile fs (bot ++ ["plugins", "updates"]) = false := by
        cases h : isFile fs (bot ++ ["plugins", "updates"])
        · rfl
        · exact absurd h hUf
      have hUabs : lookup fs (bot ++ ["plugins", "updates"]) = none :=
        (lookup_none_iff fs _).2 ⟨hUd, hUf⟩
      rw [if_neg (by simp [hUf])]
      by_cases hPd : isDir fs (bot ++ ["plugins"]) = true
      · have hm : mkdirp fs (bot ++ ["plugins", "updates"]) =
            some (insertE fs (bot ++ ["plugins", "updates"]) Node.dir) :=
          mkdirp_create hUne hUabs (by rw [hUdrop]; exact hPd)
        rw [hm, if_pos hPd]
        simp [lookup_insertE]
      · rw [if_neg hPd]
        by_cases hPf : isFile fs (bot ++ ["plugins"]) = true
        · have hm : mkdirp fs (bot ++ ["plugins", "updates"]) = none :=
            mkdirp_parent_blocked hUne hUabs
              (by rw [hUdrop]; cases h : isDir fs (bot ++ ["plugins"])
                  · rfl
                  · exact absurd h hPd)
              (by rw [hUdrop]
                  rcases (isFile_lookup fs _).1 hPf with ⟨c, hc⟩
                  simp [existsP, hc])
          rw [hm, if_pos hPf]
        · replace hPd : isDir fs (bot ++ ["plugins"]) = false := by
            cases h : isDir fs (bot ++ ["plugins"])
            · rfl
            · exact absurd h hPd
          replace hPf : isFile fs (bot ++ ["plugins"]) = false := by
            cases h : isFile fs (bot ++ ["plugins"])
            · rfl
            · exact absurd h hPf
          have hPabs : lookup fs (bot ++ ["plugins"]) = none :=
            (lookup_none_iff fs _).2 ⟨hPd, hPf⟩
          have hmP : mkdirp fs (bot ++ ["plugins"]) =
              some (insertE fs (bot ++ ["plugins"]) Node.dir) :=
            mkdirp_create hPne hPabs (by rw [hPdrop]; exact hbot)
          have hm : mkdirp fs (bot ++ ["plugins", "updates"]) =
              some (insertE (insertE fs (bot ++ ["plugins"]) Node.dir)
                (bot ++ ["plugins", "updates"]) Node.dir) := by
            rw [mkdirp_recurse hUne hUabs (by rw [hUdrop]; exact hPabs),
              hUdrop, hmP]
            rfl
          rw [hm, if_neg (by simp [hPf])]
          simp only [lookup_insertE]

/-! ### `shutil.copy2` and step 5 -/

theorem copy2_of_content_some {fs : FS} {src dst : FsPath} {c : String}
    (hc : contentOf fs src = some c) :
    copy2 fs src dst =
      copy2write fs (if isDir fs dst then dst ++ [lastName src] else dst)
        c := by
  unfold copy2
  rw [hc]

theorem copy2_success {fs : FS} {src dst : FsPath} {c : String}
    (hc : contentOf fs src = some c) (hdstd : isDir fs dst = false)
    (hpar : isDir fs dst.dropLast = true) :
    copy2 fs src dst = some (insertE fs dst (Node.file c)) := by
  rw [copy2_of_content_some hc]
  simp [copy2write, hdstd, hpar]

theorem copy2_none_of_no_src {fs : FS} {src dst : FsPath}
    (h : contentOf fs src = none) : copy2 fs src dst = none := by
  unfold copy2
  rw [h]

theorem contentOf_none_of_not_file {fs : FS} {p : FsPath}
    (h : isFile fs p = false) : contentOf fs p = none := by
  unfold contentOf
  cases hl : lookup fs p with
  | none => rfl
  | some n =>
    cases n with
    | file c =>
      have := (isFile_lookup fs p).2 ⟨c, hl⟩
      rw [h] at this
      simp at this
    | dir => rfl

theorem copyDarkJar_cond_true (bot src : FsPath) (fs : FS)
    (hcond : (existsP fs src && isFile fs src
      && decide (lastName src = "DarkBot.jar")) = true)
    (hdd : isDir fs (bot ++ ["DarkBot.jar"]) = false)
    (hbot : isDir fs bot = true) :
    copyDarkJar bot src fs =
      (insertE fs (bot ++ ["DarkBot.jar"])
        (Node.file ((contentOf fs src).getD "")), []) := by
  have hf : isFile fs src = true := by
    simp only [Bool.and_eq_true] at hcond
    exact hcond.1.2
  rcases contentOf_isSome_of_isFile hf with ⟨c, hc⟩
  have hcopy : copy2 fs src (bot ++ ["DarkBot.jar"]) =
      some (insertE fs (bot ++ ["DarkBot.jar"]) (Node.file c)) :=
    copy2_success hc hdd (by rw [dropLast_concat']; exact hbot)
  unfold copyDarkJar
  rw [if_pos hcond, hcopy, hc]
  rfl

theorem copyDarkJar_cond_false (bot src : FsPath) (fs : FS)
    (hcond : (existsP fs src && isFile fs src
      && decide (lastName src = "DarkBot.jar")) = false) :
    copyDarkJar bot src fs = (fs, [Warn.invalidDarkJar]) := by
  unfold copyDarkJar
  rw [if_neg (by simp [hcond])]

theorem foldl_copyJarStep_fst (upd src : FsPath) (L : List FsPath) (fs : FS)
    (w : List Warn) (q : FsPath)
    (hpar : ∀ p ∈ L, p.dropLast = src ∧ p ≠ [])
    (hne : src ≠ upd)
    (hU : isDir fs upd = true)
    (hnodir : ∀ r, strictUnder upd r = true → isDir fs r = false) :
    lookup (L.foldl (copyJarStep upd) (fs, w)).1 q =
      if ∃ p ∈ L, isFile fs p = true ∧ lastName p ≠ "DarkBot.jar" ∧
          q = upd ++ [lastName p]
      then Option.map Node.file (contentOf fs (src ++ [lastName q]))
      else lookup fs q := by
  induction L generalizing fs w with
  | nil => simp
  | cons a as ih =>
    have hpar' : ∀ p ∈ as, p.dropLast = src ∧ p ≠ [] := by
      intro p hp
      exact hpar p (List.mem_cons_of_mem _ hp)
    have ha := hpar a (List.mem_cons_self _ _)
    have haeq : a = src ++ [lastName a] := by
      conv_lhs => rw [eq_dropLast_concat_lastName ha.2]
      rw [ha.1]
    simp only [List.foldl_cons]
    by_cases hskip : lastName a = "DarkBot.jar"
    · have hstep : copyJarStep upd (fs, w) a =
          (fs, w ++ [Warn.skippedDarkBotPlugin]) := by
        simp [copyJarStep, hskip]
      rw [hstep, ih _ _ hpar' hU hnodir]
      have hiff : (∃ p ∈ as, isFile fs p = true ∧
            lastName p ≠ "DarkBot.jar" ∧ q = upd ++ [lastName p]) ↔
          (∃ p ∈ a :: as, isFile fs p = true ∧
            lastName p ≠ "DarkBot.jar" ∧ q = upd ++ [lastName p]) := by
        constructor
        · rintro ⟨p, hp, hP⟩
          exact ⟨p, List.mem_cons_of_mem _ hp, hP⟩
        · rintro ⟨p, hp, hP⟩
          rcases List.mem_cons.1 hp with rfl | hp'
          · exact absurd hskip hP.2.1
          · exact ⟨p, hp', hP⟩
      simp only [hiff]
    · by_cases hfa : isFile fs a = true
      · rcases contentOf_isSome_of_isFile hfa with ⟨c, hc⟩
        have hdstd : isDir fs (upd ++ [lastName a]) = false :=
          hnodir _ (strictUnder_concat upd (lastName a))
        have hcopy : copy2 fs a (upd ++ [lastName a]) =
            some (insertE fs (upd ++ [lastName a]) (Node.file c)) :=
          copy2_success hc hdstd (by rw [dropLast_concat']; exact hU)
        have hstep : copyJarStep upd (fs, w) a =
            (insertE fs (upd ++ [lastName a]) (Node.file c), w) := by
          simp [copyJarStep, hskip, hcopy]
        have hdne : upd ++ [lastName a] ≠ upd := by
          intro h
          have := congrArg List.length h
          simp at this
        have hU1 : isDir (insertE fs (upd ++ [lastName a]) (Node.file c))
            upd = true := by
          have hlu : lookup (insertE fs (upd ++ [lastName a]) (Node.file c))
              upd = lookup fs upd := by
            rw [lookup_insertE, if_neg (fun h => hdne h.symm)]
          rw [isDir_congr hlu]
          exact hU
        have hnodir1 : ∀ r, strictUnder upd r = true →
            isDir (insertE fs (upd ++ [lastName a]) (Node.file c)) r
              = false := by
          intro r hr
          by_cases hrd : r = upd ++ [lastName a]
          · subst hrd
            have hl : lookup (insertE fs (upd ++ [lastName a]) (Node.file c))
                (upd ++ [lastName a]) = some (Node.file c) := by
              rw [lookup_insertE, if_pos rfl]
            unfold isDir
            rw [hl]
          · have hlu : lookup (insertE fs (upd ++ [lastName a]) (Node.file c))
                r = lookup fs r := by
              rw [lookup_insertE, if_neg hrd]
            rw [isDir_congr hlu]
            exact hnodir r hr
        rw [hstep, ih _ _ hpar' hU1 hnodir1]
        have hsrc_ne_dst : ∀ n : String,
            src ++ [n] ≠ upd ++ [lastName a] := by
          intro n h
          exact hne ((concat_eq_concat_iff _ _ _ _).1 h).1
        have hcont1 : ∀ n : String,
            contentOf (insertE fs (upd ++ [lastName a]) (Node.file c))
              (src ++ [n]) = contentOf fs (src ++ [n]) := by
          intro n
          exact contentOf_congr (by
            rw [lookup_insertE, if_neg (hsrc_ne_dst n)])
        have hfile1 : ∀ p ∈ as,
            isFile (insertE fs (upd ++ [lastName a]) (Node.file c)) p =
              isFile fs p := by
          intro p hp
          have hp' := hpar' p hp
          have hpe : p = src ++ [lastName p] := by
            conv_lhs => rw [eq_dropLast_concat_lastName hp'.2]
            rw [hp'.1]
          exact isFile_congr (by
            rw [lookup_insertE, if_neg (by rw [hpe]; exact hsrc_ne_dst _)])
        have hiff : (∃ p ∈ as,
              isFile (insertE fs (upd ++ [lastName a]) (Node.file c)) p
                = true ∧
              lastName p ≠ "DarkBot.jar" ∧ q = upd ++ [lastName p]) ↔
            (∃ p ∈ as, isFile fs p = true ∧
              lastName p ≠ "DarkBot.jar" ∧ q = upd ++ [lastName p]) := by
          constructor
          · rintro ⟨p, hp, h1, h2, h3⟩
            exact ⟨p, hp, by rwa [hfile1 p hp] at h1, h2, h3⟩
          · rintro ⟨p, hp, h1, h2, h3⟩
            exact ⟨p, hp, by rwa [hfile1 p hp], h2, h3⟩
        simp only [hiff, hcont1]
        by_cases hqd : q = upd ++ [lastName a]
        · have hex : ∃ p ∈ a :: as, isFile fs p = true ∧
              lastName p ≠ "DarkBot.jar" ∧ q = upd ++ [lastName p] :=
            ⟨a, List.mem_cons_self _ _, hfa, hskip, hqd⟩
          have hlq : lastName q = lastName a := by rw [hqd, lastName_concat]
          have hval : contentOf fs (src ++ [lastName q]) = some c := by
            rw [hlq, ← haeq]
            exact hc
          rw [if_pos hex, hval]
          by_cases hex1 : ∃ p ∈ as, isFile fs p = true ∧
              lastName p ≠ "DarkBot.jar" ∧ q = upd ++ [lastName p]
          · rw [if_pos hex1]
          · rw [if_neg hex1, hqd, lookup_insertE, if_pos rfl]
            rfl
        · have hlq1 : lookup (insertE fs (upd ++ [lastName a])
              (Node.file c)) q = lookup fs q := by
            rw [lookup_insertE, if_neg hqd]
          have hiff2 : (∃ p ∈ as, isFile fs p = true ∧
                lastName p ≠ "DarkBot.jar" ∧ q = upd ++ [lastName p]) ↔
              (∃ p ∈ a :: as, isFile fs p = true ∧
                lastName p ≠ "DarkBot.jar" ∧ q = upd ++ [lastName p]) := by
            constructor
            · rintro ⟨p, hp, hP⟩
              exact ⟨p, List.mem_cons_of_mem _ hp, hP⟩
            · rintro ⟨p, hp, hP⟩
              rcases List.mem_cons.1 hp with rfl | hp'
              · exact absurd hP.2.2 hqd
              · exact ⟨p, hp', hP⟩
          rw [hlq1]
          simp only [hiff2]
      · replace hfa : isFile fs a = false := by
          cases h : isFile fs a
          · rfl
          · exact absurd h hfa
        have hnone : contentOf fs a = none := contentOf_none_of_not_file hfa
        have hstep : copyJarStep upd (fs, w) a =
            (fs, w ++ [Warn.copyFailed]) := by
          simp [copyJarStep, hskip, copy2_none_of_no_src hnone]
        rw [hstep, ih _ _ hpar' hU hnodir]
        have hiff : (∃ p ∈ as, isFile fs p = true ∧
              lastName p ≠ "DarkBot.jar" ∧ q = upd ++ [lastName p]) ↔
            (∃ p ∈ a :: as, isFile fs p = true ∧
              lastName p ≠ "DarkBot.jar" ∧ q = upd ++ [lastName p]) := by
          constructor
          · rintro ⟨p, hp, hP⟩
            exact ⟨p, List.mem_cons_of_mem _ hp, hP⟩
          · rintro ⟨p, hp, hP⟩
            rcases List.mem_cons.1 hp with rfl | hp'
            · exact absurd hP.1 (by simp [hfa])
            · exact ⟨p, hp', hP⟩
        simp only [hiff]

theorem copyPlugins_fst_lookup (bot pluginSrc : FsPath) (fs : FS) (q : FsPath)
    (hne : pluginSrc ≠ bot ++ ["plugins", "updates"])
    (hU : isDir fs (bot ++ ["plugins", "updates"]) = true)
    (hnodir : ∀ r, strictUnder (bot ++ ["plugins", "updates"]) r = true →
      isDir fs r = false) :
    lookup (copyPlugins bot pluginSrc fs).1 q =
      if isDir fs pluginSrc = true ∧
          copiedHere fs pluginSrc (bot ++ ["plugins", "updates"]) q
      then Option.map Node.file (contentOf fs (pluginSrc ++ [lastName q]))
      else lookup fs q := by
  simp only [copyPlugins, existsP_and_isDir]
  by_cases hs : isDir fs pluginSrc = true
  · rw [if_pos hs]
    have hpar : ∀ p ∈ globDirectJars fs pluginSrc,
        p.dropLast = pluginSrc ∧ p ≠ [] := by
      intro p hp
      have h2 := (List.mem_filter.1 hp).2
      simp only [Bool.and_eq_true] at h2
      rcases (isDirectChild_iff _ _).1 h2.1 with ⟨n, rfl⟩
      exact ⟨dropLast_concat' _ _, by simp⟩
    rw [foldl_copyJarStep_fst _ pluginSrc _ _ _ _ hpar hne hU hnodir]
    have hiff : (∃ p ∈ globDirectJars fs pluginSrc, isFile fs p = true ∧
          lastName p ≠ "DarkBot.jar" ∧
          q = (bot ++ ["plugins", "updates"]) ++ [lastName p]) ↔
        (isDir fs pluginSrc = true ∧
          copiedHere fs pluginSrc (bot ++ ["plugins", "updates"]) q) := by
      constructor
      · rintro ⟨p, hp, hf, hn, rfl⟩
        have h2 := (List.mem_filter.1 hp).2
        simp only [Bool.and_eq_true] at h2
        rcases (isDirectChild_iff _ _).1 h2.1 with ⟨n, rfl⟩
        simp only [lastName_concat] at hf hn h2 ⊢
        refine ⟨hs, dropLast_concat' _ _, by simp, ?_, ?_, ?_⟩
        · rw [lastName_concat]
          exact h2.2
        · rw [lastName_concat]
          exact hn
        · rw [lastName_concat]
          exact hf
      · rintro ⟨_, hdrop, hqne, hjar, hnd, hf⟩
        refine ⟨pluginSrc ++ [lastName q], ?_, hf, ?_, ?_⟩
        · apply List.mem_filter.2
          refine ⟨mem_keys_of_isFile hf, ?_⟩
          simp only [Bool.and_eq_true]
          constructor
          · exact (isDirectChild_iff _ _).2 ⟨lastName q, rfl⟩
          · rw [lastName_concat]
            exact hjar
        · rw [lastName_concat]
          exact hnd
        · rw [lastName_concat]
          conv_lhs => rw [eq_dropLast_concat_lastName hqne]
          rw [hdrop]
    simp only [hiff]
  · replace hs : isDir fs pluginSrc = false := by
      cases h : isDir fs pluginSrc
      · rfl
      · exact absurd h hs
    rw [if_neg (by simp [hs]), if_neg (by simp [hs])]

/-! ### Deletion-only transformations and well-formedness -/

theorem delOnly_refl (fs : FS) : DelOnly fs fs := fun q => Or.inl rfl

theorem DelOnly.trans {fs fs1 fs2 : FS} (h1 : DelOnly fs fs1)
    (h2 : DelOnly fs1 fs2) : DelOnly fs fs2 := by
  intro q
  rcases h2 q with h | ⟨hn, hf⟩
  · rcases h1 q with h' | ⟨hn', hf'⟩
    · exact Or.inl (h.trans h')
    · exact Or.inr ⟨h.trans hn', hf'⟩
  · rcases h1 q with h' | ⟨hn', hf'⟩
    · refine Or.inr ⟨hn, ?_⟩
      rwa [isFile_congr h'] at hf
    · exact Or.inr ⟨hn, hf'⟩

theorem DelOnly.isDir_eq {fs fs' : FS} (h : DelOnly fs fs') (q : FsPath) :
    isDir fs' q = isDir fs q := by
  rcases h q with h' | ⟨hn, hf⟩
  · exact isDir_congr h'
  · have h1 : isDir fs' q = false := by
      unfold isDir
      rw [hn]
    have h2 : isDir fs q = false := isDir_eq_false_of_isFile hf
    rw [h1, h2]

theorem DelOnly.none_eq {fs fs' : FS} (h : DelOnly fs fs') {q : FsPath}
    (hq : lookup fs q = none) : lookup fs' q = none := by
  rcases h q with h' | ⟨hn, _⟩
  · rw [h', hq]
  · exact hn

theorem DelOnly.wf {fs fs' : FS} (h : DelOnly fs fs') (hwf : WF fs) :
    WF fs' := by
  intro p hp q hq hqp
  have hlp : lookup fs' p = lookup fs p := by
    rcases h p with h' | ⟨hn, _⟩
    · exact h'
    · exact absurd hn hp
  rw [hlp] at hp
  have hdir := hwf p hp q hq hqp
  rcases h q with h' | ⟨hn, hf⟩
  · rw [h', hdir]
  · exfalso
    have : isFile fs q = false := by
      unfold isFile
      rw [hdir]
    rw [this] at hf
    simp at hf

theorem delOnly_purgeLogs (bot : FsPath) (fs : FS) :
    DelOnly fs (purgeLogs bot fs).1 := by
  intro q
  rw [purgeLogs_fst_lookup]
  by_cases hc : isDir fs (bot ++ ["logs"]) = true ∧
      strictUnder (bot ++ ["logs"]) q = true ∧
      strEnds ".log" (lastName q) = true ∧ isFile fs q = true
  · exact Or.inr ⟨by rw [if_pos hc], hc.2.2.2⟩
  · exact Or.inl (by rw [if_neg hc])

theorem delOnly_purgeOldPlugins (bot : FsPath) (fs : FS) :
    DelOnly fs (purgeOldPlugins bot fs).1 := by
  intro q
  rw [purgeOldPlugins_fst_lookup]
  by_cases hc : isDir fs (bot ++ ["plugins", "old"]) = true ∧
      isDirectChild (bot ++ ["plugins", "old"]) q = true ∧
      strEnds ".jar" (lastName q) = true ∧ isFile fs q = true
  · exact Or.inr ⟨by rw [if_pos hc], hc.2.2.2⟩
  · exact Or.inl (by rw [if_neg hc])

/-! ### Consequences of step 4 on a validated folder -/

theorem strictUnder_dest {base q : FsPath} (h : strictUnder base q = true) :
    ∃ x t, q = base ++ x :: t := by
  rw [strictUnder_iff] at h
  rcases (pathStarts_iff _ _).1 h.1 with ⟨t, rfl⟩
  cases t with
  | nil => exact absurd h.2 (by simp)
  | cons x xs => exact ⟨x, xs, rfl⟩

theorem strictUnder_cons (base : FsPath) (x : String) (t : List String) :
    strictUnder base (base ++ x :: t) = true := by
  rw [strictUnder_iff]
  exact ⟨pathStarts_append _ _, by simp⟩

theorem concat_ne_self (u : FsPath) (x : String) : u ++ [x] ≠ u := by
  intro h
  have := congrArg List.length h
  simp at this

theorem pathStarts_concat_cons (u : FsPath) (x y : String) (t : List String) :
    pathStarts (u ++ [x]) (u ++ y :: t) = (x == y) := by
  rw [show u ++ y :: t = u ++ ([y] ++ t) from by simp,
    show u ++ [x] = u ++ ([x] ++ []) from by simp]
  rw [pathStarts_cancel]
  simp [pathStarts]

theorem pathStarts_concat_right {a c : FsPath} {n : String}
    (h : pathStarts a (c ++ [n]) = true) :
    pathStarts a c = true ∨ a = c ++ [n] := by
  rcases (pathStarts_iff _ _).1 h with ⟨t, ht⟩
  rcases List.eq_nil_or_concat t with rfl | ⟨t', y, rfl⟩
  · right
    simpa using ht.symm
  · left
    rw [List.concat_eq_append, ← List.append_assoc] at ht
    rcases (concat_eq_concat_iff _ _ _ _).1 ht with ⟨hc, _⟩
    rw [pathStarts_iff]
    exact ⟨t', hc⟩

theorem not_purgedBelow_upd (fs : FS) (bot : FsPath) :
    ¬ purgedBelow fs (listChildren fs (bot ++ ["plugins", "updates"]))
      (bot ++ ["plugins", "updates"]) := by
  rintro ⟨c, hc, hP⟩
  rcases ((mem_listChildren_iff fs _ c).1 hc).2 with ⟨n, rfl⟩
  rcases hP with ⟨_, h⟩ | ⟨_, h⟩
  · exact concat_ne_self _ _ h.symm
  · have := pathStarts_length_le h
    simp at this

theorem resetUpdates_isDir_upd (bot : FsPath) (fs : FS)
    (hbot : isDir fs bot = true)
    (hP : lookup fs (bot ++ ["plugins"]) = none ∨
      lookup fs (bot ++ ["plugins"]) = some Node.dir)
    (hU : lookup fs (bot ++ ["plugins", "updates"]) = none ∨
      lookup fs (bot ++ ["plugins", "updates"]) = some Node.dir) :
    lookup (resetUpdates bot fs).1 (bot ++ ["plugins", "updates"]) =
      some Node.dir := by
  rw [resetUpdates_fst_lookup bot fs _ hbot]
  rcases hU with hU | hU
  · have hUd : isDir fs (bot ++ ["plugins", "updates"]) = false := by
      unfold isDir
      rw [hU]
    have hUf : isFile fs (bot ++ ["plugins", "updates"]) = false := by
      unfold isFile
      rw [hU]
    rw [if_neg (by simp [hUd]), if_neg (by simp [hUf])]
    rcases hP with hP | hP
    · have hPd : isDir fs (bot ++ ["plugins"]) = false := by
        unfold isDir
        rw [hP]
      have hPf : isFile fs (bot ++ ["plugins"]) = false := by
        unfold isFile
        rw [hP]
      rw [if_neg (by simp [hPd]), if_neg (by simp [hPf]), if_pos rfl]
    · have hPd : isDir fs (bot ++ ["plugins"]) = true := by
        unfold isDir
        rw [hP]
      rw [if_pos hPd, if_pos rfl]
  · have hUd : isDir fs (bot ++ ["plugins", "updates"]) = true := by
      unfold isDir
      rw [hU]
    rw [if_pos hUd, if_neg (not_purgedBelow_upd fs bot)]
    exact hU

theorem resetUpdates_under_upd_none (bot : FsPath) (fs : FS)
    (hwf : WF fs) (hbot : isDir fs bot = true)
    (hP : lookup fs (bot ++ ["plugins"]) = none ∨
      lookup fs (bot ++ ["plugins"]) = some Node.dir)
    (hU : lookup fs (bot ++ ["plugins", "updates"]) = none ∨
      lookup fs (bot ++ ["plugins", "updates"]) = some Node.dir) :
    ∀ q, strictUnder (bot ++ ["plugins", "updates"]) q = true →
      lookup (resetUpdates bot fs).1 q = none := by
  intro q hq
  rcases strictUnder_dest hq with ⟨x, t, rfl⟩
  have hqlen : (bot ++ ["plugins", "updates"]).length <
      ((bot ++ ["plugins", "updates"]) ++ x :: t).length := by simp
  have hqneU : (bot ++ ["plugins", "updates"]) ++ x :: t ≠
      bot ++ ["plugins", "updates"] := by
    intro h
    rw [h] at hqlen
    exact absurd hqlen (lt_irrefl _)
  have hqneP : (bot ++ ["plugins", "updates"]) ++ x :: t ≠
      bot ++ ["plugins"] := by
    intro h
    have := congrArg List.length h
    simp at this
  rw [resetUpdates_fst_lookup bot fs _ hbot]
  rcases hU with hU | hU
  · have hUd : isDir fs (bot ++ ["plugins", "updates"]) = false := by
      unfold isDir
      rw [hU]
    have hUf : isFile fs (bot ++ ["plugins", "updates"]) = false := by
      unfold isFile
      rw [hU]
    have habs : lookup fs ((bot ++ ["plugins", "updates"]) ++ x :: t) =
        none := by
      cases hl : lookup fs ((bot ++ ["plugins", "updates"]) ++ x :: t) with
      | none => rfl
      | some n =>
        exfalso
        have := hwf _ (by rw [hl]; exact Option.noConfusion)
          (bot ++ ["plugins", "updates"]) (pathStarts_append _ _) hqneU.symm
        rw [hU] at this
        cases this
    rw [if_neg (by simp [hUd]), if_neg (by simp [hUf])]
    rcases hP with hP | hP
    · have hPd : isDir fs (bot ++ ["plugins"]) = false := by
        unfold isDir
        rw [hP]
      have hPf : isFile fs (bot ++ ["plugins"]) = false := by
        unfold isFile
        rw [hP]
      rw [if_neg (by simp [hPd]), if_neg (by simp [hPf]),
        if_neg hqneU, if_neg hqneP]
      exact habs
    · have hPd : isDir fs (bot ++ ["plugins"]) = true := by
        unfold isDir
        rw [hP]
      rw [if_pos hPd, if_neg hqneU]
      exact habs
  · have hUd : isDir fs (bot ++ ["plugins", "updates"]) = true := by
      unfold isDir
      rw [hU]
    rw [if_pos hUd]
    by_cases hpb : purgedBelow fs
        (listChildren fs (bot ++ ["plugins", "updates"]))
        ((bot ++ ["plugins", "updates"]) ++ x :: t)
    · rw [if_pos hpb]
    · rw [if_neg hpb]
      cases hl : lookup fs ((bot ++ ["plugins", "updates"]) ++ x :: t) with
      | none => rfl
      | some n =>
        exfalso
        apply hpb
        by_cases hxt : t = []
        · subst hxt
          refine ⟨(bot ++ ["plugins", "updates"]) ++ [x],
            (mem_listChildren_iff _ _ _).2
              ⟨lookup_some_mem_keys hl, x, rfl⟩, ?_⟩
          cases n with
          | file c =>
            exact Or.inl ⟨(isFile_lookup _ _).2 ⟨c, hl⟩, rfl⟩
          | dir =>
            exact Or.inr ⟨(isDir_lookup _ _).2 hl, pathStarts_refl _⟩
        · have hcne : (bot ++ ["plugins", "updates"]) ++ [x] ≠
              (bot ++ ["plugins", "updates"]) ++ x :: t := by
            intro h
            have := congrArg List.length h
            simp [hxt] at this
          have hcdir : lookup fs ((bot ++ ["plugins", "updates"]) ++ [x]) =
              some Node.dir := by
            apply hwf _ (by rw [hl]; exact Option.noConfusion)
            · rw [show (bot ++ ["plugins", "updates"]) ++ x :: t =
                ((bot ++ ["plugins", "updates"]) ++ [x]) ++ t from by simp]
              exact pathStarts_append _ _
            · exact hcne
          refine ⟨(bot ++ ["plugins", "updates"]) ++ [x],
            (mem_listChildren_iff _ _ _).2
              ⟨lookup_some_mem_keys hcdir, x, rfl⟩, ?_⟩
          refine Or.inr ⟨(isDir_lookup _ _).2 hcdir, ?_⟩
          rw [show (bot ++ ["plugins", "updates"]) ++ x :: t =
            ((bot ++ ["plugins", "updates"]) ++ [x]) ++ t from by simp]
          exact pathStarts_append _ _

theorem resetUpdates_frame (bot : FsPath) (fs : FS) (q : FsPath)
    (hbot : isDir fs bot = true)
    (hq : pathStarts (bot ++ ["plugins"]) q = false) :
    lookup (resetUpdates bot fs).1 q = lookup fs q := by
  have hPU : pathStarts (bot ++ ["plugins"]) (bot ++ ["plugins", "updates"])
      = true := by
    rw [show bot ++ ["plugins", "updates"] =
      (bot ++ ["plugins"]) ++ ["updates"] from by simp]
    exact pathStarts_append _ _
  have hqneU : q ≠ bot ++ ["plugins", "updates"] := by
    rintro rfl
    rw [hPU] at hq
    cases hq
  have hqneP : q ≠ bot ++ ["plugins"] := by
    rintro rfl
    rw [pathStarts_refl] at hq
    cases hq
  have hnpb : ¬ purgedBelow fs
      (listChildren fs (bot ++ ["plugins", "updates"])) q := by
    rintro ⟨c, hc, hP⟩
    rcases ((mem_listChildren_iff fs _ c).1 hc).2 with ⟨n, rfl⟩
    have hPc : pathStarts (bot ++ ["plugins"])
        ((bot ++ ["plugins", "updates"]) ++ [n]) = true :=
      pathStarts_trans hPU (pathStarts_append _ _)
    rcases hP with ⟨_, h⟩ | ⟨_, h⟩
    · rw [h] at hq
      rw [hq] at hPc
      cases hPc
    · have := pathStarts_trans hPc h
      rw [hq] at this
      cases this
  rw [resetUpdates_fst_lookup bot fs _ hbot]
  by_cases hUd : isDir fs (bot ++ ["plugins", "updates"]) = true
  · rw [if_pos hUd, if_neg hnpb]
  · rw [if_neg hUd]
    by_cases hUf : isFile fs (bot ++ ["plugins", "updates"]) = true
    · rw [if_pos hUf]
    · rw [if_neg hUf]
      by_cases hPd : isDir fs (bot ++ ["plugins"]) = true
      · rw [if_pos hPd, if_neg hqneU]
      · rw [if_neg hPd]
        by_cases hPf : isFile fs (bot ++ ["plugins"]) = true
        · rw [if_pos hPf]
        · rw [if_neg hPf, if_neg hqneU, if_neg hqneP]

/-! ### Frame lemmas: each step only touches its own region -/

theorem copy2_some_eq {fs : FS} {src dst : FsPath} {fs1 : FS}
    (h : copy2 fs src dst = some fs1) :
    ∃ d c, pathStarts dst d = true ∧ fs1 = insertE fs d (Node.file c) := by
  cases hc : contentOf fs src with
  | none => rw [copy2_none_of_no_src hc] at h; cases h
  | some c =>
    rw [copy2_of_content_some hc] at h
    have hd : pathStarts dst
        (if isDir fs dst then dst ++ [lastName src] else dst) = true := by
      by_cases h3 : isDir fs dst = true
      · rw [if_pos h3]
        exact pathStarts_append _ _
      · rw [if_neg h3]
        exact pathStarts_refl _
    unfold copy2write at h
    by_cases h1 : isDir fs
        (if isDir fs dst then dst ++ [lastName src] else dst) = true
    · rw [if_pos h1] at h
      cases h
    · rw [if_neg h1] at h
      by_cases h2 : isDir fs
          (if isDir fs dst then dst ++ [lastName src] else dst).dropLast
            = true
      · rw [if_pos h2] at h
        exact ⟨_, c, hd, (Option.some.inj h).symm⟩
      · rw [if_neg h2] at h
        cases h

theorem copyDarkJar_frame (bot src : FsPath) (fs : FS) (q : FsPath)
    (hq : pathStarts (bot ++ ["DarkBot.jar"]) q = false) :
    lookup (copyDarkJar bot src fs).1 q = lookup fs q := by
  unfold copyDarkJar
  by_cases hcond : (existsP fs src && isFile fs src
      && decide (lastName src = "DarkBot.jar")) = true
  · rw [if_pos hcond]
    cases hcp : copy2 fs src (bot ++ ["DarkBot.jar"]) with
    | none => rfl
    | some fs1 =>
      rcases copy2_some_eq hcp with ⟨d, c, hdst, rfl⟩
      have hqd : q ≠ d := by
        rintro rfl
        rw [hdst] at hq
        cases hq
      simp only []
      rw [lookup_insertE, if_neg hqd]
  · rw [if_neg hcond]

theorem purgeLogs_frame_out (bot : FsPath) (fs : FS) (q : FsPath)
    (hq : pathStarts bot q = false) :
    lookup (purgeLogs bot fs).1 q = lookup fs q := by
  rw [purgeLogs_fst_lookup]
  apply if_neg
  rintro ⟨_, hsu, _, _⟩
  have h1 : pathStarts bot q = true :=
    pathStarts_trans (pathStarts_append bot ["logs"])
      ((strictUnder_iff _ _).1 hsu).1
  rw [h1] at hq
  cases hq

theorem purgeOldPlugins_frame_out (bot : FsPath) (fs : FS) (q : FsPath)
    (hq : pathStarts bot q = false) :
    lookup (purgeOldPlugins bot fs).1 q = lookup fs q := by
  rw [purgeOldPlugins_fst_lookup]
  apply if_neg
  rintro ⟨_, hdc, _, _⟩
  rcases (isDirectChild_iff _ _).1 hdc with ⟨n, rfl⟩
  have h1 : pathStarts bot ((bot ++ ["plugins", "old"]) ++ [n]) = true :=
    pathStarts_trans (pathStarts_append bot _) (pathStarts_append _ _)
  rw [h1] at hq
  cases hq

theorem resetUpdates_frame_out (bot : FsPath) (fs : FS) (q : FsPath)
    (hbot : isDir fs bot = true) (hq : pathStarts bot q = false) :
    lookup (resetUpdates bot fs).1 q = lookup fs q := by
  apply resetUpdates_frame bot fs q hbot
  cases h : pathStarts (bot ++ ["plugins"]) q
  · rfl
  · exfalso
    have := pathStarts_trans (pathStarts_append bot ["plugins"]) h
    rw [this] at hq
    cases hq

theorem copyDarkJar_frame_out (bot src : FsPath) (fs : FS) (q : FsPath)
    (hq : pathStarts bot q = false) :
    lookup (copyDarkJar bot src fs).1 q = lookup fs q := by
  apply copyDarkJar_frame
  cases h : pathStarts (bot ++ ["DarkBot.jar"]) q
  · rfl
  · exfalso
    have := pathStarts_trans (pathStarts_append bot ["DarkBot.jar"]) h
    rw [this] at hq
    cases hq

theorem purgeLogs_nonfile (bot : FsPath) (fs : FS) (q : FsPath)
    (hq : isFile fs q = false) :
    lookup (purgeLogs bot fs).1 q = lookup fs q := by
  rw [purgeLogs_fst_lookup]
  apply if_neg
  rintro ⟨_, _, _, hf⟩
  rw [hq] at hf
  cases hf

theorem purgeOldPlugins_nonfile (bot : FsPath) (fs : FS) (q : FsPath)
    (hq : isFile fs q = false) :
    lookup (purgeOldPlugins bot fs).1 q = lookup fs q := by
  rw [purgeOldPlugins_fst_lookup]
  apply if_neg
  rintro ⟨_, _, _, hf⟩
  rw [hq] at hf
  cases hf

theorem pathStarts_longer_false {a b : FsPath} (h : b.length < a.length) :
    pathStarts a b = false := by
  cases hp : pathStarts a b
  · rfl
  · exact absurd (pathStarts_length_le hp) (by omega)

theorem DelOnly.dir_eq {fs fs' : FS} (h : DelOnly fs fs') {p : FsPath}
    (hp : lookup fs p = some Node.dir) : lookup fs' p = some Node.dir := by
  rcases h p with h' | ⟨hn, hf⟩
  · rw [h', hp]
  · exfalso
    have hnf : isFile fs p = false := by
      unfold isFile
      rw [hp]
    rw [hnf] at hf
    cases hf

theorem DelOnly.none_or_dir {fs fs' : FS} (h : DelOnly fs fs') {p : FsPath}
    (hp : lookup fs p = none ∨ lookup fs p = some Node.dir) :
    lookup fs' p = none ∨ lookup fs' p = some Node.dir := by
  rcases hp with hp | hp
  · exact Or.inl (h.none_eq hp)
  · exact Or.inr (h.dir_eq hp)

theorem foldl_copyJarStep_skipped (upd : FsPath) (L : List FsPath) (fs : FS)
    (w : List Warn) :
    (Warn.skippedDarkBotPlugin ∈ (L.foldl (copyJarStep upd) (fs, w)).2) ↔
      Warn.skippedDarkBotPlugin ∈ w ∨
        ∃ p ∈ L, lastName p = "DarkBot.jar" := by
  induction L generalizing fs w with
  | nil => simp
  | cons a as ih =>
    simp only [List.foldl_cons]
    by_cases hskip : lastName a = "DarkBot.jar"
    · have hstep : copyJarStep upd (fs, w) a =
          (fs, w ++ [Warn.skippedDarkBotPlugin]) := by
        simp [copyJarStep, hskip]
      rw [hstep, ih]
      constructor
      · intro _
        exact Or.inr ⟨a, List.mem_cons_self _ _, hskip⟩
      · intro _
        exact Or.inl (by simp)
    · have hmem_iff : (∃ p ∈ as, lastName p = "DarkBot.jar") ↔
          (∃ p ∈ a :: as, lastName p = "DarkBot.jar") := by
        constructor
        · rintro ⟨p, hp, hP⟩
          exact ⟨p, List.mem_cons_of_mem _ hp, hP⟩
        · rintro ⟨p, hp, hP⟩
          rcases List.mem_cons.1 hp with rfl | hp'
          · exact absurd hP hskip
          · exact ⟨p, hp', hP⟩
      cases hcp : copy2 fs a (upd ++ [lastName a]) with
      | some fs1 =>
        have hstep : copyJarStep upd (fs, w) a = (fs1, w) := by
          simp [copyJarStep, hskip, hcp]
        rw [hstep, ih]
        simp only [hmem_iff]
      | none =>
        have hstep : copyJarStep upd (fs, w) a =
            (fs, w ++ [Warn.copyFailed]) := by
          simp [copyJarStep, hskip, hcp]
        rw [hstep, ih]
        have hw : (Warn.skippedDarkBotPlugin ∈ w ++ [Warn.copyFailed]) ↔
            Warn.skippedDarkBotPlugin ∈ w := by
          simp
        rw [hw]
        simp only [hmem_iff]

theorem copyPlugins_skipped_warn (bot psrc : FsPath) (fs : FS)
    (hs : isDir fs psrc = true)
    (hmem : ∃ p ∈ globDirectJars fs psrc, lastName p = "DarkBot.jar") :
    Warn.skippedDarkBotPlugin ∈ (copyPlugins bot psrc fs).2 := by
  simp only [copyPlugins, existsP_and_isDir]
  rw [if_pos hs, foldl_copyJarStep_skipped]
  exact Or.inr hmem

theorem process_single_bot_valid (bot : FsPath) (cfg : Config) (fs : FS)
    (hv : (existsP fs bot && isDir fs bot) = true) :
    process_single_bot bot cfg fs =
      (((copyPlugins bot cfg.pluginSrc
          (copyDarkJar bot cfg.darkjarSrc
            (resetUpdates bot
              (purgeOldPlugins bot (purgeLogs bot fs).1).1).1).1).1,
        (purgeLogs bot fs).2 ++
          (purgeOldPlugins bot (purgeLogs bot fs).1).2 ++
          (resetUpdates bot (purgeOldPlugins bot (purgeLogs bot fs).1).1).2 ++
          (copyDarkJar bot cfg.darkjarSrc
            (resetUpdates bot
              (purgeOldPlugins bot (purgeLogs bot fs).1).1).1).2 ++
          (copyPlugins bot cfg.pluginSrc
            (copyDarkJar bot cfg.darkjarSrc
              (resetUpdates bot
                (purgeOldPlugins bot (purgeLogs bot fs).1).1).1).1).2),
        none) := by
  unfold process_single_bot
  rw [if_pos hv]

theorem steps1to4_frame_out (bot : FsPath) (djar : FsPath) (fs : FS)
    (hbot : isDir fs bot = true) (x : FsPath)
    (hx : pathStarts bot x = false) :
    lookup (copyDarkJar bot djar
        (resetUpdates bot
          (purgeOldPlugins bot (purgeLogs bot fs).1).1).1).1 x =
      lookup fs x := by
  have hbot1 : isDir (purgeLogs bot fs).1 bot = true := by
    rw [(delOnly_purgeLogs bot fs).isDir_eq]
    exact hbot
  have hbot2 : isDir (purgeOldPlugins bot (purgeLogs bot fs).1).1 bot
      = true := by
    rw [(delOnly_purgeOldPlugins bot _).isDir_eq]
    exact hbot1
  rw [copyDarkJar_frame_out _ _ _ _ hx,
    resetUpdates_frame_out _ _ _ hbot2 hx,
    purgeOldPlugins_frame_out _ _ _ hx, purgeLogs_frame_out _ _ _ hx]

theorem process_single_bot_fst_valid (bot : FsPath) (cfg : Config) (fs : FS)
    (hv : (existsP fs bot && isDir fs bot) = true) :
    (process_single_bot bot cfg fs).1.1 =
      (copyPlugins bot cfg.pluginSrc
        (copyDarkJar bot cfg.darkjarSrc
          (resetUpdates bot
            (purgeOldPlugins bot (purgeLogs bot fs).1).1).1).1).1 := by
  rw [process_single_bot_valid bot cfg fs hv]

theorem process_single_bot_snd_valid (bot : FsPath) (cfg : Config) (fs : FS)
    (hv : (existsP fs bot && isDir fs bot) = true) :
    (process_single_bot bot cfg fs).1.2 =
      (purgeLogs bot fs).2 ++
        (purgeOldPlugins bot (purgeLogs bot fs).1).2 ++
        (resetUpdates bot (purgeOldPlugins bot (purgeLogs bot fs).1).1).2 ++
        (copyDarkJar bot cfg.darkjarSrc
          (resetUpdates bot
            (purgeOldPlugins bot (purgeLogs bot fs).1).1).1).2 ++
        (copyPlugins bot cfg.pluginSrc
          (copyDarkJar bot cfg.darkjarSrc
            (resetUpdates bot
              (purgeOldPlugins bot (purgeLogs bot fs).1).1).1).1).2 := by
  rw [process_single_bot_valid bot cfg fs hv]

theorem steps23_delOnly (bot : FsPath) (fs : FS) :
    DelOnly fs (purgeOldPlugins bot (purgeLogs bot fs).1).1 :=
  (delOnly_purgeLogs bot fs).trans (delOnly_purgeOldPlugins bot _)

theorem step4_facts (bot : FsPath) (fs : FS) (hwf : WF fs)
    (hbot : isDir fs bot = true)
    (hP0 : lookup fs (bot ++ ["plugins"]) = none ∨
      lookup fs (bot ++ ["plugins"]) = some Node.dir)
    (hU0 : lookup fs (bot ++ ["plugins", "updates"]) = none ∨
      lookup fs (bot ++ ["plugins", "updates"]) = some Node.dir) :
    lookup (resetUpdates bot
        (purgeOldPlugins bot (purgeLogs bot fs).1).1).1
        (bot ++ ["plugins", "updates"]) = some Node.dir ∧
    ∀ q, strictUnder (bot ++ ["plugins", "updates"]) q = true →
      lookup (resetUpdates bot
        (purgeOldPlugins bot (purgeLogs bot fs).1).1).1 q = none := by
  have hdel := steps23_delOnly bot fs
  have hbot2 : isDir (purgeOldPlugins bot (purgeLogs bot fs).1).1 bot
      = true := by
    rw [hdel.isDir_eq]
    exact hbot
  have hP2 := hdel.none_or_dir hP0
  have hU2 := hdel.none_or_dir hU0
  have hwf2 := hdel.wf hwf
  exact ⟨resetUpdates_isDir_upd _ _ hbot2 hP2 hU2,
    resetUpdates_under_upd_none _ _ hwf2 hbot2 hP2 hU2⟩

theorem step5a_preserves_updates (bot djar : FsPath) (fs3 : FS) (q : FsPath)
    (hq : pathStarts (bot ++ ["plugins", "updates"]) q = true) :
    lookup (copyDarkJar bot djar fs3).1 q = lookup fs3 q := by
  apply copyDarkJar_frame
  rcases (pathStarts_iff _ _).1 hq with ⟨t, rfl⟩
  rw [show (bot ++ ["plugins", "updates"]) ++ t =
    bot ++ "plugins" :: ("updates" :: t) from by simp]
  rw [pathStarts_concat_cons]
  decide

theorem steps1to4_bot_dir (bot djar : FsPath) (fs : FS)
    (hbot : isDir fs bot = true) :
    lookup (copyDarkJar bot djar
        (resetUpdates bot
          (purgeOldPlugins bot (purgeLogs bot fs).1).1).1).1 bot =
      some Node.dir := by
  have h0 : lookup fs bot = some Node.dir := (isDir_lookup fs bot).1 hbot
  have h1 : lookup (purgeLogs bot fs).1 bot = lookup fs bot :=
    purgeLogs_nonfile _ _ _ (isFile_eq_false_of_isDir hbot)
  have hbot1 : isDir (purgeLogs bot fs).1 bot = true := by
    rw [(delOnly_purgeLogs bot fs).isDir_eq]
    exact hbot
  have h2 : lookup (purgeOldPlugins bot (purgeLogs bot fs).1).1 bot =
      lookup (purgeLogs bot fs).1 bot :=
    purgeOldPlugins_nonfile _ _ _ (isFile_eq_false_of_isDir hbot1)
  have hbot2 : isDir (purgeOldPlugins bot (purgeLogs bot fs).1).1 bot
      = true := by
    rw [(delOnly_purgeOldPlugins bot _).isDir_eq]
    exact hbot1
  have h3 : lookup (resetUpdates bot
      (purgeOldPlugins bot (purgeLogs bot fs).1).1).1 bot =
      lookup (purgeOldPlugins bot (purgeLogs bot fs).1).1 bot :=
    resetUpdates_frame _ _ _ hbot2
      (pathStarts_longer_false (by simp))
  have h4 : lookup (copyDarkJar bot djar
      (resetUpdates bot
        (purgeOldPlugins bot (purgeLogs bot fs).1).1).1).1 bot =
      lookup (resetUpdates bot
        (purgeOldPlugins bot (purgeLogs bot fs).1).1).1 bot :=
    copyDarkJar_frame _ _ _ _ (pathStarts_longer_false (by simp))
  rw [h4, h3, h2, h1, h0]

/-- The state of the update-staging area after a full run: a directory
holding exactly the copies of the eligible source jars, with the
`DarkBot.jar` source skipped (shared workhorse for the claims below). -/
theorem updates_region_spec (bot : FsPath) (cfg : Config) (fs : FS)
    (hwf : WF fs)
    (hbot : isDir fs bot = true)
    (hP0 : lookup fs (bot ++ ["plugins"]) = none ∨
      lookup fs (bot ++ ["plugins"]) = some Node.dir)
    (hU0 : lookup fs (bot ++ ["plugins", "updates"]) = none ∨
      lookup fs (bot ++ ["plugins", "updates"]) = some Node.dir)
    (hsrc : isDir fs cfg.pluginSrc = true)
    (hsep : pathStarts bot cfg.pluginSrc = false) :
    lookup (process_single_bot bot cfg fs).1.1
        (bot ++ ["plugins", "updates"]) = some Node.dir ∧
    (∀ q, strictUnder (bot ++ ["plugins", "updates"]) q = true →
      lookup (process_single_bot bot cfg fs).1.1 q =
        if copiedHere fs cfg.pluginSrc (bot ++ ["plugins", "updates"]) q
        then Option.map Node.file
          (contentOf fs (cfg.pluginSrc ++ [lastName q]))
        else none) ∧
    (∀ c, lookup fs (cfg.pluginSrc ++ ["DarkBot.jar"]) =
        some (Node.file c) →
      lookup (process_single_bot bot cfg fs).1.1
        ((bot ++ ["plugins", "updates"]) ++ ["DarkBot.jar"]) = none ∧
      Warn.skippedDarkBotPlugin ∈ (process_single_bot bot cfg fs).1.2) ∧
    (lookup fs (bot ++ ["plugins", "updates"]) = none →
      lookup (resetUpdates bot
          (purgeOldPlugins bot (purgeLogs bot fs).1).1).1
          (bot ++ ["plugins", "updates"]) = some Node.dir ∧
      ∀ q, strictUnder (bot ++ ["plugins", "updates"]) q = true →
        lookup (resetUpdates bot
          (purgeOldPlugins bot (purgeLogs bot fs).1).1).1 q = none) := by
  have hv : (existsP fs bot && isDir fs bot) = true := by
    rw [existsP_and_isDir]
    exact hbot
  have hfacts := step4_facts bot fs hwf hbot hP0 hU0
  have hU4 : lookup (copyDarkJar bot cfg.darkjarSrc
      (resetUpdates bot (purgeOldPlugins bot (purgeLogs bot fs).1).1).1).1
      (bot ++ ["plugins", "updates"]) = some Node.dir := by
    rw [step5a_preserves_updates _ _ _ _ (pathStarts_refl _)]
    exact hfacts.1
  have hU4d : isDir (copyDarkJar bot cfg.darkjarSrc
      (resetUpdates bot (purgeOldPlugins bot (purgeLogs bot fs).1).1).1).1
      (bot ++ ["plugins", "updates"]) = true := (isDir_lookup _ _).2 hU4
  have hunder4 : ∀ q, strictUnder (bot ++ ["plugins", "updates"]) q = true →
      lookup (copyDarkJar bot cfg.darkjarSrc
        (resetUpdates bot (purgeOldPlugins bot (purgeLogs bot fs).1).1).1).1
        q = none := by
    intro q hq
    rw [step5a_preserves_updates _ _ _ _ ((strictUnder_iff _ _).1 hq).1]
    exact hfacts.2 q hq
  have hnodir4 : ∀ r, strictUnder (bot ++ ["plugins", "updates"]) r = true →
      isDir (copyDarkJar bot cfg.darkjarSrc
        (resetUpdates bot (purgeOldPlugins bot (purgeLogs bot fs).1).1).1).1
        r = false := by
    intro r hr
    unfold isDir
    rw [hunder4 r hr]
  have hne : cfg.pluginSrc ≠ bot ++ ["plugins", "updates"] := by
    intro h
    rw [h, pathStarts_append] at hsep
    cases hsep
  have hbot4 := steps1to4_bot_dir bot cfg.darkjarSrc fs hbot
  have hfile_eq : ∀ n : String,
      isFile (copyDarkJar bot cfg.darkjarSrc
        (resetUpdates bot (purgeOldPlugins bot (purgeLogs bot fs).1).1).1).1
        (cfg.pluginSrc ++ [n]) = isFile fs (cfg.pluginSrc ++ [n]) := by
    intro n
    cases hpn : pathStarts bot (cfg.pluginSrc ++ [n])
    · exact isFile_congr
        (steps1to4_frame_out bot cfg.darkjarSrc fs hbot _ hpn)
    · rcases pathStarts_concat_right hpn with h | h
      · rw [h] at hsep
        cases hsep
      · rw [← h]
        have hf4 : isFile (copyDarkJar bot cfg.darkjarSrc
            (resetUpdates bot
              (purgeOldPlugins bot (purgeLogs bot fs).1).1).1).1 bot
            = false := by
          unfold isFile
          rw [hbot4]
        rw [hf4, isFile_eq_false_of_isDir hbot]
  have hcont_eq : ∀ n : String,
      contentOf (copyDarkJar bot cfg.darkjarSrc
        (resetUpdates bot (purgeOldPlugins bot (purgeLogs bot fs).1).1).1).1
        (cfg.pluginSrc ++ [n]) = contentOf fs (cfg.pluginSrc ++ [n]) := by
    intro n
    cases hpn : pathStarts bot (cfg.pluginSrc ++ [n])
    · exact contentOf_congr
        (steps1to4_frame_out bot cfg.darkjarSrc fs hbot _ hpn)
    · rcases pathStarts_concat_right hpn with h | h
      · rw [h] at hsep
        cases hsep
      · rw [← h]
        have hc4 : contentOf (copyDarkJar bot cfg.darkjarSrc
            (resetUpdates bot
              (purgeOldPlugins bot (purgeLogs bot fs).1).1).1).1 bot
            = none := by
          unfold contentOf
          rw [hbot4]
        have hc0 : contentOf fs bot = none := by
          unfold contentOf
          rw [(isDir_lookup fs bot).1 hbot]
        rw [hc4, hc0]
  have hsrc4 : isDir (copyDarkJar bot cfg.darkjarSrc
      (resetUpdates bot (purgeOldPlugins bot (purgeLogs bot fs).1).1).1).1
      cfg.pluginSrc = true := by
    rw [isDir_congr (steps1to4_frame_out bot cfg.darkjarSrc fs hbot _ hsep)]
    exact hsrc
  have hUdrop : (bot ++ ["plugins", "updates"]).dropLast =
      bot ++ ["plugins"] := by
    rw [show bot ++ ["plugins", "updates"] =
      (bot ++ ["plugins"]) ++ ["updates"] from by simp, dropLast_concat']
  refine ⟨?_, ?_, ?_, fun _ => hfacts⟩
  · rw [process_single_bot_fst_valid _ _ _ hv,
      copyPlugins_fst_lookup _ _ _ _ hne hU4d hnodir4]
    rw [if_neg ?_]
    · exact hU4
    · rintro ⟨_, hdrop, _⟩
      rw [hUdrop] at hdrop
      have := congrArg List.length hdrop
      simp at this
  · intro q hq
    rw [process_single_bot_fst_valid _ _ _ hv,
      copyPlugins_fst_lookup _ _ _ _ hne hU4d hnodir4,
      hunder4 q hq]
    simp only [copiedHere, hfile_eq, hcont_eq, hsrc4, true_and]
  · intro c hc
    have hpsrc_pres : lookup (copyDarkJar bot cfg.darkjarSrc
        (resetUpdates bot (purgeOldPlugins bot (purgeLogs bot fs).1).1).1).1
        (cfg.pluginSrc ++ ["DarkBot.jar"]) = some (Node.file c) := by
      cases hpn : pathStarts bot (cfg.pluginSrc ++ ["DarkBot.jar"])
      · rw [steps1to4_frame_out bot cfg.darkjarSrc fs hbot _ hpn]
        exact hc
      · rcases pathStarts_concat_right hpn with h | h
        · rw [h] at hsep
          cases hsep
        · exfalso
          rw [← h] at hc
          rw [(isDir_lookup fs bot).1 hbot] at hc
          cases hc
    constructor
    · rw [process_single_bot_fst_valid _ _ _ hv,
        copyPlugins_fst_lookup _ _ _ _ hne hU4d hnodir4]
      rw [if_neg ?_]
      · exact hunder4 _ (strictUnder_concat _ _)
      · rintro ⟨_, _, _, _, hnd, _⟩
        rw [lastName_concat] at hnd
        exact hnd rfl
    · rw [process_single_bot_snd_valid _ _ _ hv]
      apply List.mem_append.2
      right
      apply copyPlugins_skipped_warn _ _ _ hsrc4
      refine ⟨cfg.pluginSrc ++ ["DarkBot.jar"], ?_, by rw [lastName_concat]⟩
      apply List.mem_filter.2
      refine ⟨lookup_some_mem_keys hpsrc_pres, ?_⟩
      simp only [Bool.and_eq_true]
      constructor
      · exact (isDirectChild_iff _ _).2 ⟨"DarkBot.jar", rfl⟩
      · rw [lastName_concat]
        decide

/-- Claim C1: after the update-staging reset (step 4) and the plugin
install (step 5b) of `process_single_bot`, the folder
`<bot>/plugins/updates` is a directory holding exactly copies of the
non-`DarkBot.jar` `*.jar` files lying directly under the plugin source
folder; a source file named `DarkBot.jar` is skipped with a warning and
never copied; and if `plugins/updates` was absent it is an empty directory
immediately after step 4. -/
theorem c1_plugin_updates_exact (bot : FsPath) (cfg : Config) (fs : FS)
    (hwf : WF fs)
    (hbot : isDir fs bot = true)
    (hP0 : lookup fs (bot ++ ["plugins"]) = none ∨
      lookup fs (bot ++ ["plugins"]) = some Node.dir)
    (hU0 : lookup fs (bot ++ ["plugins", "updates"]) = none ∨
      lookup fs (bot ++ ["plugins", "updates"]) = some Node.dir)
    (hsrc : isDir fs cfg.pluginSrc = true)
    (hsep : pathStarts bot cfg.pluginSrc = false) :
    lookup (process_single_bot bot cfg fs).1.1
        (bot ++ ["plugins", "updates"]) = some Node.dir ∧
    (∀ q, strictUnder (bot ++ ["plugins", "updates"]) q = true →
      lookup (process_single_bot bot cfg fs).1.1 q =
        if copiedHere fs cfg.pluginSrc (bot ++ ["plugins", "updates"]) q
        then Option.map Node.file
          (contentOf fs (cfg.pluginSrc ++ [lastName q]))
        else none) ∧
    (∀ c, lookup fs (cfg.pluginSrc ++ ["DarkBot.jar"]) =
        some (Node.file c) →
      lookup (process_single_bot bot cfg fs).1.1
        ((bot ++ ["plugins", "updates"]) ++ ["DarkBot.jar"]) = none ∧
      Warn.skippedDarkBotPlugin ∈ (process_single_bot bot cfg fs).1.2) ∧
    (lookup fs (bot ++ ["plugins", "updates"]) = none →
      lookup (resetUpdates bot
          (purgeOldPlugins bot (purgeLogs bot fs).1).1).1
          (bot ++ ["plugins", "updates"]) = some Node.dir ∧
      ∀ q, strictUnder (bot ++ ["plugins", "updates"]) q = true →
        lookup (resetUpdates bot
          (purgeOldPlugins bot (purgeLogs bot fs).1).1).1 q = none) :=
  updates_region_spec bot cfg fs hwf hbot hP0 hU0 hsrc hsep

theorem resetUpdates_frame_fine (bot : FsPath) (fs : FS) (q : FsPath)
    (hbot : isDir fs bot = true)
    (h1 : pathStarts (bot ++ ["plugins", "updates"]) q = false)
    (h2 : q ≠ bot ++ ["plugins"]) :
    lookup (resetUpdates bot fs).1 q = lookup fs q := by
  have hqneU : q ≠ bot ++ ["plugins", "updates"] := by
    rintro rfl
    rw [pathStarts_refl] at h1
    cases h1
  have hnpb : ¬ purgedBelow fs
      (listChildren fs (bot ++ ["plugins", "updates"])) q := by
    rintro ⟨c, hc, hP⟩
    rcases ((mem_listChildren_iff fs _ c).1 hc).2 with ⟨n, rfl⟩
    rcases hP with ⟨_, h⟩ | ⟨_, h⟩
    · rw [h] at h1
      rw [pathStarts_append] at h1
      cases h1
    · have := pathStarts_trans (pathStarts_append
        (bot ++ ["plugins", "updates"]) [n]) h
      rw [this] at h1
      cases h1
  rw [resetUpdates_fst_lookup bot fs _ hbot]
  by_cases hUd : isDir fs (bot ++ ["plugins", "updates"]) = true
  · rw [if_pos hUd, if_neg hnpb]
  · rw [if_neg hUd]
    by_cases hUf : isFile fs (bot ++ ["plugins", "updates"]) = true
    · rw [if_pos hUf]
    · rw [if_neg hUf]
      by_cases hPd : isDir fs (bot ++ ["plugins"]) = true
      · rw [if_pos hPd, if_neg hqneU]
      · rw [if_neg hPd]
        by_cases hPf : isFile fs (bot ++ ["plugins"]) = true
        · rw [if_pos hPf]
        · rw [if_neg hPf, if_neg hqneU, if_neg h2]

theorem foldl_copyJarStep_frame (upd : FsPath) (L : List FsPath) (fs : FS)
    (w : List Warn) (q : FsPath) (hq : pathStarts upd q = false) :
    lookup (L.foldl (copyJarStep upd) (fs, w)).1 q = lookup fs q := by
  induction L generalizing fs w with
  | nil => rfl
  | cons a as ih =>
    rw [List.foldl_cons]
    by_cases hskip : lastName a = "DarkBot.jar"
    · have hstep : copyJarStep upd (fs, w) a =
          (fs, w ++ [Warn.skippedDarkBotPlugin]) := by
        simp [copyJarStep, hskip]
      rw [hstep, ih]
    · cases hcp : copy2 fs a (upd ++ [lastName a]) with
      | none =>
        have hstep : copyJarStep upd (fs, w) a =
            (fs, w ++ [Warn.copyFailed]) := by
          simp [copyJarStep, hskip, hcp]
        rw [hstep, ih]
      | some fs1 =>
        rcases copy2_some_eq hcp with ⟨d, c, hd, rfl⟩
        have hstep : copyJarStep upd (fs, w) a =
            (insertE fs d (Node.file c), w) := by
          simp [copyJarStep, hskip, hcp]
        rw [hstep, ih]
        have hqd : q ≠ d := by
          rintro rfl
          have := pathStarts_trans (pathStarts_append upd [lastName a]) hd
          rw [this] at hq
          cases hq
        rw [lookup_insertE, if_neg hqd]

theorem copyPlugins_frame (bot src : FsPath) (fs : FS) (q : FsPath)
    (hq : pathStarts (bot ++ ["plugins", "updates"]) q = false) :
    lookup (copyPlugins bot src fs).1 q = lookup fs q := by
  unfold copyPlugins
  by_cases hg : (existsP fs src && isDir fs src) = true
  · rw [if_pos hg]
    exact foldl_copyJarStep_frame _ _ _ _ _ hq
  · rw [if_neg hg]

/-! ### Idempotence infrastructure (claim C6) -/

theorem pathStarts_cons (x y : String) (xs ys : List String) :
    pathStarts (x :: xs) (y :: ys) = ((x == y) && pathStarts xs ys) := rfl

theorem pathStarts_app_cons_ne (bot : FsPath) (x y : String)
    (xs t : List String) (h : (x == y) = false) :
    pathStarts (bot ++ x :: xs) (bot ++ y :: t) = false := by
  rw [pathStarts_cancel, pathStarts_cons, h, Bool.false_and]

theorem pathStarts_app_cons2_ne (bot : FsPath) (x y z : String)
    (xs t : List String) (h : (y == z) = false) :
    pathStarts (bot ++ x :: y :: xs) (bot ++ x :: z :: t) = false := by
  rw [pathStarts_cancel, pathStarts_cons, pathStarts_cons, h,
    Bool.false_and, Bool.and_false]

theorem pathStarts_app_cons_same (bot : FsPath) (x : String)
    (t : List String) :
    pathStarts (bot ++ [x]) (bot ++ x :: t) = true := by
  rw [pathStarts_cancel, pathStarts_cons]
  simp [pathStarts]

theorem ne_of_pathStarts_false {a q : FsPath}
    (h : pathStarts a q = false) : q ≠ a := by
  rintro rfl
  rw [pathStarts_refl] at h
  cases h

theorem strictUnder_false_of_le {base q : FsPath}
    (h : q.length ≤ base.length) : strictUnder base q = false := by
  unfold strictUnder
  rw [decide_eq_false (by omega), Bool.and_false]

theorem strictUnder_false_of_not_starts {base q : FsPath}
    (h : pathStarts base q = false) : strictUnder base q = false := by
  unfold strictUnder
  rw [h, Bool.false_and]

theorem pathStarts_bot_of_under {bot sub q : FsPath}
    (h : pathStarts (bot ++ sub) q = true) : pathStarts bot q = true :=
  pathStarts_trans (pathStarts_append bot sub) h

theorem pathStarts_app_false {bot q : FsPath} (sub : List String)
    (h : pathStarts bot q = false) : pathStarts (bot ++ sub) q = false := by
  cases hh : pathStarts (bot ++ sub) q
  · rfl
  · exfalso
    have := pathStarts_bot_of_under hh
    rw [h] at this
    cases this

theorem neq_true_of_eq_false {b : Bool} (h : b = false) : ¬ (b = true) := by
  rw [h]
  exact Bool.false_ne_true

theorem isDirectChild_self (base : FsPath) :
    isDirectChild base base = false := by
  cases h : isDirectChild base base
  · rfl
  · rcases (isDirectChild_iff _ _).1 h with ⟨n, hn⟩
    exact absurd hn.symm (concat_ne_self base n)

theorem steps12_bot_dir (bot : FsPath) (fs : FS)
    (hbot : isDir fs bot = true) :
    isDir (purgeOldPlugins bot (purgeLogs bot fs).1).1 bot = true := by
  rw [(steps23_delOnly bot fs).isDir_eq]
  exact hbot

theorem steps123_bot_dir (bot : FsPath) (fs : FS)
    (hbot : isDir fs bot = true) :
    isDir (resetUpdates bot
      (purgeOldPlugins bot (purgeLogs bot fs).1).1).1 bot = true := by
  have h2 := steps12_bot_dir bot fs hbot
  rw [isDir_congr (resetUpdates_frame _ _ bot h2
    (pathStarts_longer_false (by simp)))]
  exact h2

theorem steps123_frame_out (bot : FsPath) (fs : FS)
    (hbot : isDir fs bot = true) (x : FsPath)
    (hx : pathStarts bot x = false) :
    lookup (resetUpdates bot
      (purgeOldPlugins bot (purgeLogs bot fs).1).1).1 x = lookup fs x := by
  rw [resetUpdates_frame_out _ _ _ (steps12_bot_dir bot fs hbot) hx,
    purgeOldPlugins_frame_out _ _ _ hx, purgeLogs_frame_out _ _ _ hx]

theorem steps123_at_D (bot : FsPath) (fs : FS)
    (hbot : isDir fs bot = true) :
    lookup (resetUpdates bot
        (purgeOldPlugins bot (purgeLogs bot fs).1).1).1
      (bot ++ ["DarkBot.jar"]) =
    lookup fs (bot ++ ["DarkBot.jar"]) := by
  have hU : pathStarts (bot ++ ["plugins", "updates"])
      (bot ++ ["DarkBot.jar"]) = false :=
    pathStarts_app_cons_ne bot "plugins" "DarkBot.jar" ["updates"] []
      (by decide)
  have hP : pathStarts (bot ++ ["plugins"]) (bot ++ ["DarkBot.jar"])
      = false :=
    pathStarts_app_cons_ne bot "plugins" "DarkBot.jar" [] [] (by decide)
  rw [resetUpdates_frame_fine _ _ _ (steps12_bot_dir bot fs hbot) hU
    (ne_of_pathStarts_false hP)]
  rw [purgeOldPlugins_fst_lookup]
  have hn2 : ¬(isDir (purgeLogs bot fs).1 (bot ++ ["plugins", "old"])
      = true ∧
      isDirectChild (bot ++ ["plugins", "old"]) (bot ++ ["DarkBot.jar"])
        = true ∧
      strEnds ".jar" (lastName (bot ++ ["DarkBot.jar"])) = true ∧
      isFile (purgeLogs bot fs).1 (bot ++ ["DarkBot.jar"]) = true) := by
    rintro ⟨_, hdc, _, _⟩
    rcases (isDirectChild_iff _ _).1 hdc with ⟨n, hn⟩
    have hl := congrArg List.length hn
    simp only [List.length_append, List.length_cons, List.length_nil] at hl
    omega
  rw [if_neg hn2, purgeLogs_fst_lookup]
  have hn1 : ¬(isDir fs (bot ++ ["logs"]) = true ∧
      strictUnder (bot ++ ["logs"]) (bot ++ ["DarkBot.jar"]) = true ∧
      strEnds ".log" (lastName (bot ++ ["DarkBot.jar"])) = true ∧
      isFile fs (bot ++ ["DarkBot.jar"]) = true) := by
    rintro ⟨_, hsu, _, _⟩
    rw [strictUnder_false_of_not_starts
      (pathStarts_app_cons_ne bot "logs" "DarkBot.jar" [] [] (by decide))]
      at hsu
    cases hsu
  rw [if_neg hn1]

theorem run1_frame_out (bot : FsPath) (cfg : Config) (fs : FS)
    (hbot : isDir fs bot = true) (x : FsPath)
    (hx : pathStarts bot x = false) :
    lookup (process_single_bot bot cfg fs).1.1 x = lookup fs x := by
  rw [process_single_bot_fst_valid bot cfg fs
    (by rw [existsP_and_isDir]; exact hbot)]
  rw [copyPlugins_frame _ _ _ _ (pathStarts_app_false _ hx)]
  exact steps1to4_frame_out bot cfg.darkjarSrc fs hbot x hx

theorem run1_bot_dir (bot : FsPath) (cfg : Config) (fs : FS)
    (hbot : isDir fs bot = true) :
    lookup (process_single_bot bot cfg fs).1.1 bot = some Node.dir := by
  rw [process_single_bot_fst_valid bot cfg fs
    (by rw [existsP_and_isDir]; exact hbot)]
  rw [copyPlugins_frame _ _ _ _ (pathStarts_longer_false (by simp))]
  exact steps1to4_bot_dir bot cfg.darkjarSrc fs hbot

theorem run1_logs_region (bot : FsPath) (cfg : Config) (fs : FS)
    (hbot : isDir fs bot = true) (t : List String) :
    lookup (process_single_bot bot cfg fs).1.1 (bot ++ "logs" :: t) =
      lookup (purgeLogs bot fs).1 (bot ++ "logs" :: t) := by
  rw [process_single_bot_fst_valid bot cfg fs
    (by rw [existsP_and_isDir]; exact hbot)]
  have hU : pathStarts (bot ++ ["plugins", "updates"])
      (bot ++ "logs" :: t) = false :=
    pathStarts_app_cons_ne bot "plugins" "logs" ["updates"] t (by decide)
  have hD : pathStarts (bot ++ ["DarkBot.jar"]) (bot ++ "logs" :: t)
      = false :=
    pathStarts_app_cons_ne bot "DarkBot.jar" "logs" [] t (by decide)
  have hP : pathStarts (bot ++ ["plugins"]) (bot ++ "logs" :: t)
      = false :=
    pathStarts_app_cons_ne bot "plugins" "logs" [] t (by decide)
  rw [copyPlugins_frame _ _ _ _ hU, copyDarkJar_frame _ _ _ _ hD,
    resetUpdates_frame _ _ _ (steps12_bot_dir bot fs hbot) hP]
  rw [purgeOldPlugins_fst_lookup]
  apply if_neg
  rintro ⟨_, hdc, _, _⟩
  rcases (isDirectChild_iff _ _).1 hdc with ⟨n, hn⟩
  have h1 : pathStarts (bot ++ ["plugins"]) (bot ++ "logs" :: t)
      = false := hP
  rw [hn, show (bot ++ ["plugins", "old"]) ++ [n] =
    bot ++ "plugins" :: "old" :: [n] from by simp,
    pathStarts_app_cons_same] at h1
  cases h1

theorem run1_old_region (bot : FsPath) (cfg : Config) (fs : FS)
    (hbot : isDir fs bot = true) (t : List String) :
    lookup (process_single_bot bot cfg fs).1.1
        (bot ++ "plugins" :: "old" :: t) =
      lookup (purgeOldPlugins bot (purgeLogs bot fs).1).1
        (bot ++ "plugins" :: "old" :: t) := by
  rw [process_single_bot_fst_valid bot cfg fs
    (by rw [existsP_and_isDir]; exact hbot)]
  have hU : pathStarts (bot ++ ["plugins", "updates"])
      (bot ++ "plugins" :: "old" :: t) = false :=
    pathStarts_app_cons2_ne bot "plugins" "updates" "old" [] t (by decide)
  have hD : pathStarts (bot ++ ["DarkBot.jar"])
      (bot ++ "plugins" :: "old" :: t) = false :=
    pathStarts_app_cons_ne bot "DarkBot.jar" "plugins" [] ("old" :: t)
      (by decide)
  have hqP : bot ++ "plugins" :: "old" :: t ≠ bot ++ ["plugins"] := by
    intro h
    have hl := congrArg List.length h
    simp only [List.length_append, List.length_cons, List.length_nil] at hl
    omega
  rw [copyPlugins_frame _ _ _ _ hU, copyDarkJar_frame _ _ _ _ hD,
    resetUpdates_frame_fine _ _ _ (steps12_bot_dir bot fs hbot) hU hqP]

theorem run1_at_D (bot : FsPath) (cfg : Config) (fs : FS)
    (hbot : isDir fs bot = true)
    (hdd : isDir fs (bot ++ ["DarkBot.jar"]) = false)
    (hsep1 : pathStarts bot cfg.darkjarSrc = false) :
    lookup (process_single_bot bot cfg fs).1.1 (bot ++ ["DarkBot.jar"]) =
      if (existsP fs cfg.darkjarSrc && isFile fs cfg.darkjarSrc &&
          decide (lastName cfg.darkjarSrc = "DarkBot.jar")) = true
      then some (Node.file ((contentOf fs cfg.darkjarSrc).getD ""))
      else lookup fs (bot ++ ["DarkBot.jar"]) := by
  rw [process_single_bot_fst_valid bot cfg fs
    (by rw [existsP_and_isDir]; exact hbot)]
  have hU : pathStarts (bot ++ ["plugins", "updates"])
      (bot ++ ["DarkBot.jar"]) = false :=
    pathStarts_app_cons_ne bot "plugins" "DarkBot.jar" ["updates"] []
      (by decide)
  rw [copyPlugins_frame _ _ _ _ hU]
  have hdj3 : lookup (resetUpdates bot
      (purgeOldPlugins bot (purgeLogs bot fs).1).1).1 cfg.darkjarSrc =
      lookup fs cfg.darkjarSrc :=
    steps123_frame_out bot fs hbot _ hsep1
  cases hcnd : (existsP fs cfg.darkjarSrc && isFile fs cfg.darkjarSrc &&
      decide (lastName cfg.darkjarSrc = "DarkBot.jar")) with
  | false =>
    rw [if_neg (by decide : ¬ (false = true))]
    have hcnd3 : (existsP (resetUpdates bot
        (purgeOldPlugins bot (purgeLogs bot fs).1).1).1 cfg.darkjarSrc &&
        isFile (resetUpdates bot
          (purgeOldPlugins bot (purgeLogs bot fs).1).1).1 cfg.darkjarSrc &&
        decide (lastName cfg.darkjarSrc = "DarkBot.jar")) = false := by
      rw [existsP_congr hdj3, isFile_congr hdj3]
      exact hcnd
    have h4eq : (copyDarkJar bot cfg.darkjarSrc
        (resetUpdates bot
          (purgeOldPlugins bot (purgeLogs bot fs).1).1).1).1 =
        (resetUpdates bot
          (purgeOldPlugins bot (purgeLogs bot fs).1).1).1 := by
      rw [copyDarkJar_cond_false bot cfg.darkjarSrc _ hcnd3]
    rw [h4eq]
    exact steps123_at_D bot fs hbot
  | true =>
    rw [if_pos (rfl : (true : Bool) = true)]
    have hcnd3 : (existsP (resetUpdates bot
        (purgeOldPlugins bot (purgeLogs bot fs).1).1).1 cfg.darkjarSrc &&
        isFile (resetUpdates bot
          (purgeOldPlugins bot (purgeLogs bot fs).1).1).1 cfg.darkjarSrc &&
        decide (lastName cfg.darkjarSrc = "DarkBot.jar")) = true := by
      rw [existsP_congr hdj3, isFile_congr hdj3]
      exact hcnd
    have hdd3 : isDir (resetUpdates bot
        (purgeOldPlugins bot (purgeLogs bot fs).1).1).1
        (bot ++ ["DarkBot.jar"]) = false := by
      rw [isDir_congr (steps123_at_D bot fs hbot)]
      exact hdd
    have h4eq : (copyDarkJar bot cfg.darkjarSrc
        (resetUpdates bot
          (purgeOldPlugins bot (purgeLogs bot fs).1).1).1).1 =
        insertE (resetUpdates bot
            (purgeOldPlugins bot (purgeLogs bot fs).1).1).1
          (bot ++ ["DarkBot.jar"])
          (Node.file ((contentOf (resetUpdates bot
            (purgeOldPlugins bot
              (purgeLogs bot fs).1).1).1 cfg.darkjarSrc).getD "")) := by
      rw [copyDarkJar_cond_true bot cfg.darkjarSrc _ hcnd3 hdd3
        (steps123_bot_dir bot fs hbot)]
    rw [h4eq, lookup_insertE, if_pos rfl, contentOf_congr hdj3]

theorem run1_src_lookup (bot : FsPath) (cfg : Config) (fs : FS)
    (hbot : isDir fs bot = true)
    (hsep2 : pathStarts bot cfg.pluginSrc = false) (n : String) :
    isFile (process_single_bot bot cfg fs).1.1 (cfg.pluginSrc ++ [n]) =
      isFile fs (cfg.pluginSrc ++ [n]) ∧
    contentOf (process_single_bot bot cfg fs).1.1 (cfg.pluginSrc ++ [n]) =
      contentOf fs (cfg.pluginSrc ++ [n]) := by
  cases hpn : pathStarts bot (cfg.pluginSrc ++ [n]) with
  | false =>
    have h := run1_frame_out bot cfg fs hbot _ hpn
    exact ⟨isFile_congr h, contentOf_congr h⟩
  | true =>
    rcases pathStarts_concat_right hpn with h | h
    · rw [h] at hsep2
      cases hsep2
    · have hF := run1_bot_dir bot cfg fs hbot
      have h0 := (isDir_lookup fs bot).1 hbot
      rw [← h]
      constructor
      · unfold isFile
        rw [hF, h0]
      · unfold contentOf
        rw [hF, h0]

theorem purgeLogs_idem_core (bot : FsPath) (fs F1 : FS)
    (hlog : ∀ t : List String, lookup F1 (bot ++ "logs" :: t) =
      lookup (purgeLogs bot fs).1 (bot ++ "logs" :: t)) :
    ∀ q, lookup (purgeLogs bot F1).1 q = lookup F1 q := by
  intro q
  rw [purgeLogs_fst_lookup]
  apply if_neg
  rintro ⟨hdir, hsu, hlg, hf⟩
  rcases strictUnder_dest hsu with ⟨x, t, rfl⟩
  have hshape : (bot ++ ["logs"]) ++ x :: t = bot ++ "logs" :: x :: t := by
    simp
  have hLg : lookup (purgeLogs bot fs).1 (bot ++ ["logs"]) =
      lookup fs (bot ++ ["logs"]) := by
    rw [purgeLogs_fst_lookup]
    apply if_neg
    rintro ⟨_, hsu', _, _⟩
    rw [strictUnder_false_of_le (le_refl _)] at hsu'
    cases hsu'
  have hdirfs : isDir fs (bot ++ ["logs"]) = true := by
    rw [← isDir_congr hLg, ← isDir_congr (hlog [])]
    exact hdir
  have h1 : lookup F1 ((bot ++ ["logs"]) ++ x :: t) =
      lookup (purgeLogs bot fs).1 ((bot ++ ["logs"]) ++ x :: t) := by
    rw [hshape]
    exact hlog (x :: t)
  rw [isFile_congr h1] at hf
  have hg1q := purgeLogs_fst_lookup bot fs ((bot ++ ["logs"]) ++ x :: t)
  by_cases hC : isDir fs (bot ++ ["logs"]) = true ∧
      strictUnder (bot ++ ["logs"]) ((bot ++ ["logs"]) ++ x :: t) = true ∧
      strEnds ".log" (lastName ((bot ++ ["logs"]) ++ x :: t)) = true ∧
      isFile fs ((bot ++ ["logs"]) ++ x :: t) = true
  · have hnone : lookup (purgeLogs bot fs).1 ((bot ++ ["logs"]) ++ x :: t)
        = none := by
      rw [hg1q, if_pos hC]
    unfold isFile at hf
    rw [hnone] at hf
    cases hf
  · have hval : lookup (purgeLogs bot fs).1 ((bot ++ ["logs"]) ++ x :: t)
        = lookup fs ((bot ++ ["logs"]) ++ x :: t) := by
      rw [hg1q, if_neg hC]
    apply hC
    rw [isFile_congr hval] at hf
    exact ⟨hdirfs, hsu, hlg, hf⟩

theorem purgeOldPlugins_idem_core (bot : FsPath) (g1 F1 : FS)
    (hold : ∀ t : List String,
      lookup F1 (bot ++ "plugins" :: "old" :: t) =
      lookup (purgeOldPlugins bot g1).1 (bot ++ "plugins" :: "old" :: t)) :
    ∀ q, lookup (purgeOldPlugins bot F1).1 q = lookup F1 q := by
  intro q
  rw [purgeOldPlugins_fst_lookup]
  apply if_neg
  rintro ⟨hdir, hdc, hjar, hf⟩
  rcases (isDirectChild_iff _ _).1 hdc with ⟨n, rfl⟩
  have hshape : (bot ++ ["plugins", "old"]) ++ [n] =
      bot ++ "plugins" :: "old" :: [n] := by
    simp
  have hOld : lookup (purgeOldPlugins bot g1).1
      (bot ++ ["plugins", "old"]) =
      lookup g1 (bot ++ ["plugins", "old"]) := by
    rw [purgeOldPlugins_fst_lookup]
    apply if_neg
    rintro ⟨_, hdc', _, _⟩
    rw [isDirectChild_self] at hdc'
    cases hdc'
  have hdirg1 : isDir g1 (bot ++ ["plugins", "old"]) = true := by
    rw [← isDir_congr hOld, ← isDir_congr (hold [])]
    exact hdir
  have h1 : lookup F1 ((bot ++ ["plugins", "old"]) ++ [n]) =
      lookup (purgeOldPlugins bot g1).1
        ((bot ++ ["plugins", "old"]) ++ [n]) := by
    rw [hshape]
    exact hold [n]
  rw [isFile_congr h1] at hf
  have hg2q := purgeOldPlugins_fst_lookup bot g1
    ((bot ++ ["plugins", "old"]) ++ [n])
  by_cases hC : isDir g1 (bot ++ ["plugins", "old"]) = true ∧
      isDirectChild (bot ++ ["plugins", "old"])
        ((bot ++ ["plugins", "old"]) ++ [n]) = true ∧
      strEnds ".jar" (lastName ((bot ++ ["plugins", "old"]) ++ [n]))
        = true ∧
      isFile g1 ((bot ++ ["plugins", "old"]) ++ [n]) = true
  · have hnone : lookup (purgeOldPlugins bot g1).1
        ((bot ++ ["plugins", "old"]) ++ [n]) = none := by
      rw [hg2q, if_pos hC]
    unfold isFile at hf
    rw [hnone] at hf
    cases hf
  · have hval : lookup (purgeOldPlugins bot g1).1
        ((bot ++ ["plugins", "old"]) ++ [n]) =
        lookup g1 ((bot ++ ["plugins", "old"]) ++ [n]) := by
      rw [hg2q, if_neg hC]
    apply hC
    rw [isFile_congr hval] at hf
    exact ⟨hdirg1, hdc, hjar, hf⟩

theorem resetUpdates_clears (bot : FsPath) (h2f F1 : FS)
    (hpt : ∀ r, lookup h2f r = lookup F1 r)
    (hbotF : isDir F1 bot = true)
    (hUF : lookup F1 (bot ++ ["plugins", "updates"]) = some Node.dir)
    (hunder : ∀ r,
      strictUnder (bot ++ ["plugins", "updates"]) r = true →
      lookup F1 r = none ∨ (isFile F1 r = true ∧
        r.dropLast = bot ++ ["plugins", "updates"])) :
    ∀ q, lookup (resetUpdates bot h2f).1 q =
      if strictUnder (bot ++ ["plugins", "updates"]) q = true then none
      else lookup F1 q := by
  intro q
  have hbot2 : isDir h2f bot = true := by
    rw [isDir_congr (hpt bot)]
    exact hbotF
  rw [resetUpdates_fst_lookup bot h2f q hbot2]
  have hUd : isDir h2f (bot ++ ["plugins", "updates"]) = true := by
    rw [isDir_congr (hpt _)]
    exact (isDir_lookup _ _).2 hUF
  rw [if_pos hUd]
  by_cases hsu : strictUnder (bot ++ ["plugins", "updates"]) q = true
  · rw [if_pos hsu]
    by_cases hpb : purgedBelow h2f
        (listChildren h2f (bot ++ ["plugins", "updates"])) q
    · rw [if_pos hpb]
    · rw [if_neg hpb, hpt q]
      rcases hunder q hsu with hn | ⟨hfF, hdrop⟩
      · exact hn
      · exfalso
        apply hpb
        have hqne : q ≠ [] := by
          rcases strictUnder_dest hsu with ⟨x, t, hq⟩
          rw [hq]
          simp
        have hq' : q = (bot ++ ["plugins", "updates"]) ++ [lastName q] := by
          conv_lhs => rw [eq_dropLast_concat_lastName hqne]
          rw [hdrop]
        refine ⟨q, ?_, Or.inl ⟨?_, rfl⟩⟩
        · apply (mem_listChildren_iff _ _ _).2
          refine ⟨?_, lastName q, hq'⟩
          rcases (isFile_lookup F1 q).1 hfF with ⟨c, hc⟩
          exact lookup_some_mem_keys (by rw [hpt q, hc])
        · rw [isFile_congr (hpt q)]
          exact hfF
  · rw [if_neg hsu]
    have hnpb : ¬ purgedBelow h2f
        (listChildren h2f (bot ++ ["plugins", "updates"])) q := by
      rintro ⟨c, hc, hcase⟩
      rcases (mem_listChildren_iff _ _ _).1 hc with ⟨hck, n, rfl⟩
      rcases hcase with ⟨hcf, rfl⟩ | ⟨hcd, hps⟩
      · exact hsu (strictUnder_concat _ _)
      · have hsc : strictUnder (bot ++ ["plugins", "updates"])
            ((bot ++ ["plugins", "updates"]) ++ [n]) = true :=
          strictUnder_concat _ _
        have hdF : isDir F1 ((bot ++ ["plugins", "updates"]) ++ [n])
            = false := by
          rcases hunder _ hsc with hn | ⟨hfF, _⟩
          · unfold isDir
            rw [hn]
          · exact isDir_eq_false_of_isFile hfF
        rw [isDir_congr (hpt _), hdF] at hcd
        cases hcd
    rw [if_neg hnpb]
    exact hpt q

theorem copyPlugins_rebuild (bot ps : FsPath) (fs F1 h4f : FS)
    (q : FsPath)
    (hD4 : ∀ r, lookup h4f r =
      if strictUnder (bot ++ ["plugins", "updates"]) r = true then none
      else lookup F1 r)
    (hUF : lookup F1 (bot ++ ["plugins", "updates"]) = some Node.dir)
    (hunderF : ∀ r,
      strictUnder (bot ++ ["plugins", "updates"]) r = true →
      lookup F1 r =
        if copiedHere fs ps (bot ++ ["plugins", "updates"]) r
        then Option.map Node.file (contentOf fs (ps ++ [lastName r]))
        else none)
    (hFsrcdir : isDir F1 ps = true)
    (hsrcfile : ∀ n, isFile F1 (ps ++ [n]) = isFile fs (ps ++ [n]))
    (hsrccont : ∀ n, contentOf F1 (ps ++ [n]) = contentOf fs (ps ++ [n]))
    (hsep2 : pathStarts bot ps = false) :
    lookup (copyPlugins bot ps h4f).1 q = lookup F1 q := by
  have hU4 : isDir h4f (bot ++ ["plugins", "updates"]) = true := by
    have h : lookup h4f (bot ++ ["plugins", "updates"]) =
        lookup F1 (bot ++ ["plugins", "updates"]) := by
      rw [hD4, if_neg (neq_true_of_eq_false
        (strictUnder_false_of_le (le_refl _)))]
    rw [isDir_congr h]
    exact (isDir_lookup _ _).2 hUF
  have hnodir4 : ∀ r,
      strictUnder (bot ++ ["plugins", "updates"]) r = true →
      isDir h4f r = false := by
    intro r hr
    unfold isDir
    rw [hD4, if_pos hr]
  have hne : ps ≠ bot ++ ["plugins", "updates"] := by
    intro h
    rw [h, pathStarts_append] at hsep2
    cases hsep2
  rw [copyPlugins_fst_lookup bot ps h4f q hne hU4 hnodir4]
  have hsups : strictUnder (bot ++ ["plugins", "updates"]) ps = false :=
    strictUnder_false_of_not_starts (pathStarts_app_false _ hsep2)
  have hdir4ps : isDir h4f ps = true := by
    have h : lookup h4f ps = lookup F1 ps := by
      rw [hD4, if_neg (neq_true_of_eq_false hsups)]
    rw [isDir_congr h]
    exact hFsrcdir
  have hsun : ∀ n : String,
      strictUnder (bot ++ ["plugins", "updates"]) (ps ++ [n]) = false := by
    intro n
    apply strictUnder_false_of_not_starts
    cases hh : pathStarts (bot ++ ["plugins", "updates"]) (ps ++ [n])
    · rfl
    · exfalso
      have hb := pathStarts_bot_of_under hh
      rcases pathStarts_concat_right hb with h | h
      · rw [h] at hsep2
        cases hsep2
      · rw [← h] at hh
        rw [pathStarts_longer_false (by simp)] at hh
        cases hh
  have hsrc4 : ∀ n : String, lookup h4f (ps ++ [n]) =
      lookup F1 (ps ++ [n]) := by
    intro n
    rw [hD4, if_neg (neq_true_of_eq_false (hsun n))]
  have hsrc4file : ∀ n, isFile h4f (ps ++ [n]) = isFile fs (ps ++ [n]) := by
    intro n
    rw [isFile_congr (hsrc4 n)]
    exact hsrcfile n
  have hsrc4cont : ∀ n, contentOf h4f (ps ++ [n]) =
      contentOf fs (ps ++ [n]) := by
    intro n
    rw [contentOf_congr (hsrc4 n)]
    exact hsrccont n
  have hchiff : ∀ r, copiedHere h4f ps (bot ++ ["plugins", "updates"]) r ↔
      copiedHere fs ps (bot ++ ["plugins", "updates"]) r := by
    intro r
    unfold copiedHere
    rw [hsrc4file (lastName r)]
  by_cases hsu : strictUnder (bot ++ ["plugins", "updates"]) q = true
  · rw [hunderF q hsu]
    by_cases hch : copiedHere fs ps (bot ++ ["plugins", "updates"]) q
    · rw [if_pos ⟨hdir4ps, (hchiff q).2 hch⟩, if_pos hch,
        hsrc4cont (lastName q)]
    · have hn1 : ¬(isDir h4f ps = true ∧
          copiedHere h4f ps (bot ++ ["plugins", "updates"]) q) :=
        fun hh => hch ((hchiff q).1 hh.2)
      rw [if_neg hn1, if_neg hch, hD4, if_pos hsu]
  · have hnot : ¬ copiedHere h4f ps (bot ++ ["plugins", "updates"]) q := by
      rintro ⟨hdrop, hne', _, _, _⟩
      apply hsu
      have hq' : q = (bot ++ ["plugins", "updates"]) ++ [lastName q] := by
        conv_lhs => rw [eq_dropLast_concat_lastName hne']
        rw [hdrop]
      rw [hq']
      exact strictUnder_concat _ _
    have hn1 : ¬(isDir h4f ps = true ∧
        copiedHere h4f ps (bot ++ ["plugins", "updates"]) q) :=
      fun hh => hnot hh.2
    rw [if_neg hn1, hD4, if_neg hsu]

/-- Claim C6: running the full per-folder maintenance procedure twice in
a row yields the same filesystem state as running it once — the second
run's steps 2–4 find nothing (new) to delete and step 5 overwrites the
previously installed files with identical copies.  Stated pointwise on
lookups, under the starting conditions: a well-formed disk, the bot
folder a directory, `plugins` and `plugins/updates` absent or
directories, `DarkBot.jar` not a directory, the plugin source a
directory, and both configured source paths outside the bot folder. -/
theorem c6_idempotent (bot : FsPath) (cfg : Config) (fs : FS)
    (hwf : WF fs)
    (hbot : isDir fs bot = true)
    (hP0 : lookup fs (bot ++ ["plugins"]) = none ∨
      lookup fs (bot ++ ["plugins"]) = some Node.dir)
    (hU0 : lookup fs (bot ++ ["plugins", "updates"]) = none ∨
      lookup fs (bot ++ ["plugins", "updates"]) = some Node.dir)
    (hdd : isDir fs (bot ++ ["DarkBot.jar"]) = false)
    (hsrc : isDir fs cfg.pluginSrc = true)
    (hsep1 : pathStarts bot cfg.darkjarSrc = false)
    (hsep2 : pathStarts bot cfg.pluginSrc = false) :
    ∀ q, lookup (process_single_bot bot cfg
        (process_single_bot bot cfg fs).1.1).1.1 q =
      lookup (process_single_bot bot cfg fs).1.1 q := by
  intro q
  have hbotF : isDir (process_single_bot bot cfg fs).1.1 bot = true :=
    (isDir_lookup _ _).2 (run1_bot_dir bot cfg fs hbot)
  rw [process_single_bot_fst_valid bot cfg _
    (by rw [existsP_and_isDir]; exact hbotF)]
  have hA : ∀ r, lookup (purgeLogs bot
      (process_single_bot bot cfg fs).1.1).1 r =
      lookup (process_single_bot bot cfg fs).1.1 r :=
    purgeLogs_idem_core bot fs _ (run1_logs_region bot cfg fs hbot)
  have hB : ∀ r, lookup (purgeOldPlugins bot (purgeLogs bot
      (process_single_bot bot cfg fs).1.1).1).1 r =
      lookup (purgeLogs bot (process_single_bot bot cfg fs).1.1).1 r := by
    apply purgeOldPlugins_idem_core bot (purgeLogs bot fs).1
    intro t
    rw [hA]
    exact run1_old_region bot cfg fs hbot t
  have hAB : ∀ r, lookup (purgeOldPlugins bot (purgeLogs bot
      (process_single_bot bot cfg fs).1.1).1).1 r =
      lookup (process_single_bot bot cfg fs).1.1 r :=
    fun r => (hB r).trans (hA r)
  have hspec := updates_region_spec bot cfg fs hwf hbot hP0 hU0 hsrc hsep2
  have hUF : lookup (process_single_bot bot cfg fs).1.1
      (bot ++ ["plugins", "updates"]) = some Node.dir := hspec.1
  have hunderF := hspec.2.1
  have hunderF2 : ∀ r,
      strictUnder (bot ++ ["plugins", "updates"]) r = true →
      lookup (process_single_bot bot cfg fs).1.1 r = none ∨
        (isFile (process_single_bot bot cfg fs).1.1 r = true ∧
          r.dropLast = bot ++ ["plugins", "updates"]) := by
    intro r hr
    by_cases hch : copiedHere fs cfg.pluginSrc
        (bot ++ ["plugins", "updates"]) r
    · right
      rcases contentOf_isSome_of_isFile hch.2.2.2.2 with ⟨c, hc⟩
      have hl : lookup (process_single_bot bot cfg fs).1.1 r =
          some (Node.file c) := by
        rw [hunderF r hr, if_pos hch, hc]
        rfl
      exact ⟨(isFile_lookup _ _).2 ⟨c, hl⟩, hch.1⟩
    · left
      rw [hunderF r hr, if_neg hch]
  have hC := resetUpdates_clears bot _ _ hAB hbotF hUF hunderF2
  have hsuDJ : strictUnder (bot ++ ["plugins", "updates"])
      cfg.darkjarSrc = false :=
    strictUnder_false_of_not_starts (pathStarts_app_false _ hsep1)
  have hdjh3 : lookup (resetUpdates bot (purgeOldPlugins bot (purgeLogs bot
      (process_single_bot bot cfg fs).1.1).1).1).1 cfg.darkjarSrc =
      lookup fs cfg.darkjarSrc := by
    rw [hC cfg.darkjarSrc, if_neg (neq_true_of_eq_false hsuDJ)]
    exact run1_frame_out bot cfg fs hbot _ hsep1
  have hsuD : strictUnder (bot ++ ["plugins", "updates"])
      (bot ++ ["DarkBot.jar"]) = false :=
    strictUnder_false_of_not_starts
      (pathStarts_app_cons_ne bot "plugins" "DarkBot.jar" ["updates"] []
        (by decide))
  have hFdir : isDir (process_single_bot bot cfg fs).1.1 cfg.pluginSrc
      = true := by
    rw [isDir_congr (run1_frame_out bot cfg fs hbot _ hsep2)]
    exact hsrc
  cases hcnd : (existsP fs cfg.darkjarSrc && isFile fs cfg.darkjarSrc &&
      decide (lastName cfg.darkjarSrc = "DarkBot.jar")) with
  | false =>
    have hcnd3 : (existsP (resetUpdates bot (purgeOldPlugins bot
        (purgeLogs bot (process_single_bot bot cfg fs).1.1).1).1).1
        cfg.darkjarSrc &&
        isFile (resetUpdates bot (purgeOldPlugins bot (purgeLogs bot
          (process_single_bot bot cfg fs).1.1).1).1).1 cfg.darkjarSrc &&
        decide (lastName cfg.darkjarSrc = "DarkBot.jar")) = false := by
      rw [existsP_congr hdjh3, isFile_congr hdjh3]
      exact hcnd
    have h4eq : (copyDarkJar bot cfg.darkjarSrc (resetUpdates bot
        (purgeOldPlugins bot (purgeLogs bot
          (process_single_bot bot cfg fs).1.1).1).1).1).1 =
        (resetUpdates bot (purgeOldPlugins bot (purgeLogs bot
          (process_single_bot bot cfg fs).1.1).1).1).1 := by
      rw [copyDarkJar_cond_false bot cfg.darkjarSrc _ hcnd3]
    have hD4 : ∀ r, lookup (copyDarkJar bot cfg.darkjarSrc (resetUpdates bot
        (purgeOldPlugins bot (purgeLogs bot
          (process_single_bot bot cfg fs).1.1).1).1).1).1 r =
        if strictUnder (bot ++ ["plugins", "updates"]) r = true then none
        else lookup (process_single_bot bot cfg fs).1.1 r := by
      intro r
      rw [h4eq]
      exact hC r
    exact copyPlugins_rebuild bot cfg.pluginSrc fs _ _ q hD4 hUF hunderF
      hFdir (fun n => (run1_src_lookup bot cfg fs hbot hsep2 n).1)
      (fun n => (run1_src_lookup bot cfg fs hbot hsep2 n).2) hsep2
  | true =>
    have hcnd3 : (existsP (resetUpdates bot (purgeOldPlugins bot
        (purgeLogs bot (process_single_bot bot cfg fs).1.1).1).1).1
        cfg.darkjarSrc &&
        isFile (resetUpdates bot (purgeOldPlugins bot (purgeLogs bot
          (process_single_bot bot cfg fs).1.1).1).1).1 cfg.darkjarSrc &&
        decide (lastName cfg.darkjarSrc = "DarkBot.jar")) = true := by
      rw [existsP_congr hdjh3, isFile_congr hdjh3]
      exact hcnd
    have hDDF : lookup (process_single_bot bot cfg fs).1.1
        (bot ++ ["DarkBot.jar"]) =
        some (Node.file ((contentOf fs cfg.darkjarSrc).getD "")) := by
      rw [run1_at_D bot cfg fs hbot hdd hsep1, if_pos hcnd]
    have hbot3F : isDir (resetUpdates bot (purgeOldPlugins bot (purgeLogs
        bot (process_single_bot bot cfg fs).1.1).1).1).1 bot = true := by
      have h : lookup (resetUpdates bot (purgeOldPlugins bot (purgeLogs bot
          (process_single_bot bot cfg fs).1.1).1).1).1 bot =
          lookup (process_single_bot bot cfg fs).1.1 bot := by
        rw [hC bot, if_neg (neq_true_of_eq_false
          (strictUnder_false_of_le (by simp)))]
      rw [isDir_congr h]
      exact hbotF
    have hdd3F : isDir (resetUpdates bot (purgeOldPlugins bot (purgeLogs
        bot (process_single_bot bot cfg fs).1.1).1).1).1
        (bot ++ ["DarkBot.jar"]) = false := by
      have h : lookup (resetUpdates bot (purgeOldPlugins bot (purgeLogs bot
          (process_single_bot bot cfg fs).1.1).1).1).1
          (bot ++ ["DarkBot.jar"]) =
          lookup (process_single_bot bot cfg fs).1.1
            (bot ++ ["DarkBot.jar"]) := by
        rw [hC _, if_neg (neq_true_of_eq_false hsuD)]
      unfold isDir
      rw [h, hDDF]
    have h4eq : (copyDarkJar bot cfg.darkjarSrc (resetUpdates bot
        (purgeOldPlugins bot (purgeLogs bot
          (process_single_bot bot cfg fs).1.1).1).1).1).1 =
        insertE (resetUpdates bot (purgeOldPlugins bot (purgeLogs bot
            (process_single_bot bot cfg fs).1.1).1).1).1
          (bot ++ ["DarkBot.jar"])
          (Node.file ((contentOf (resetUpdates bot (purgeOldPlugins bot
            (purgeLogs bot (process_single_bot bot cfg
              fs).1.1).1).1).1 cfg.darkjarSrc).getD "")) := by
      rw [copyDarkJar_cond_true bot cfg.darkjarSrc _ hcnd3 hdd3F hbot3F]
    have hD4 : ∀ r, lookup (copyDarkJar bot cfg.darkjarSrc (resetUpdates bot
        (purgeOldPlugins bot (purgeLogs bot
          (process_single_bot bot cfg fs).1.1).1).1).1).1 r =
        if strictUnder (bot ++ ["plugins", "updates"]) r = true then none
        else lookup (process_single_bot bot cfg fs).1.1 r := by
      intro r
      rw [h4eq, lookup_insertE]
      by_cases hrD : r = bot ++ ["DarkBot.jar"]
      · rw [if_pos hrD, hrD, if_neg (neq_true_of_eq_false hsuD), hDDF,
          contentOf_congr hdjh3]
      · rw [if_neg hrD]
        exact hC r
    exact copyPlugins_rebuild bot cfg.pluginSrc fs _ _ q hD4 hUF hunderF
      hFdir (fun n => (run1_src_lookup bot cfg fs hbot hsep2 n).1)
      (fun n => (run1_src_lookup bot cfg fs hbot hsep2 n).2) hsep2

theorem clearLogs_eq_purgeLogs : clearLogs = purgeLogs := rfl

theorem clearOldPlugins_eq_purgeOldPlugins :
    clearOldPlugins = purgeOldPlugins := rfl

theorem wfB_imp_WF (fs : FS) (h : wfB fs = true) : WF fs := by
  intro p hp q hq hqp
  have hpk : p ∈ keys fs := by
    cases hl : lookup fs p with
    | none => exact absurd hl hp
    | some n => exact lookup_some_mem_keys hl
  have h1 := (List.all_eq_true.1 h) p hpk
  simp only [] at h1
  have hlen : q.length < p.length := by
    have hle := pathStarts_length_le hq
    rcases lt_or_eq_of_le hle with h' | h'
    · exact h'
    · exact absurd (pathStarts_eq_of_length hq (le_of_eq h'.symm)) hqp
  have h2 := (List.all_eq_true.1 h1) q.length (List.mem_range.2 hlen)
  have htake : p.take q.length = q := by
    rcases (pathStarts_iff q p).1 hq with ⟨t, rfl⟩
    exact List.take_left _ _
  rw [htake] at h2
  exact (isDir_lookup fs q).1 h2

theorem c6_witness :
    WF sampleFS ∧ isDir sampleFS sampleBot = true ∧
    isDir sampleFS (sampleBot ++ ["DarkBot.jar"]) = false ∧
    pathStarts sampleBot sampleCfg.darkjarSrc = false ∧
    lookup (process_single_bot sampleBot sampleCfg
        (process_single_bot sampleBot sampleCfg sampleFS).1.1).1.1
      (sampleBot ++ ["plugins", "updates", "a.jar"]) =
    lookup (process_single_bot sampleBot sampleCfg sampleFS).1.1
      (sampleBot ++ ["plugins", "updates", "a.jar"]) :=
  ⟨wfB_imp_WF sampleFS (by decide), by decide, by decide, by decide,
    c6_idempotent sampleBot sampleCfg sampleFS
      (wfB_imp_WF sampleFS (by decide)) (by decide)
      (Or.inr (by decide)) (Or.inr (by decide))
      (by decide) (by decide) (by decide) (by decide)
      (sampleBot ++ ["plugins", "updates", "a.jar"])⟩

/-! ### The claims -/

theorem is_bot_folder_isDir (fs : FS) (p : FsPath) :
    is_bot_folder fs p = isDir fs p := by
  unfold is_bot_folder
  cases hd : isDir fs p <;> simp

/-- Claim C9: `is_bot_folder` accepts exactly the directories — the
`logs`/`plugins` heuristic is dead code, because for any directory both
branches of the heuristic return `True`. -/
theorem c9_is_bot_folder_eq_isDir (fs : FS) (p : FsPath) :
    is_bot_folder fs p = isDir fs p :=
  is_bot_folder_isDir fs p

/-- Claim C3: the log purge (step 2) removes exactly the regular files
with extension `.log` lying below `<bot>/logs`; every other path — in
particular everything below `<bot>/plugins` — is unchanged. -/
theorem c3_purge_logs_exact (bot : FsPath) (fs : FS) :
    (∀ q, lookup (purgeLogs bot fs).1 q =
      if isDir fs (bot ++ ["logs"]) = true ∧
          strictUnder (bot ++ ["logs"]) q = true ∧
          strEnds ".log" (lastName q) = true ∧ isFile fs q = true
      then none else lookup fs q) ∧
    (∀ q, pathStarts (bot ++ ["plugins"]) q = true →
      lookup (purgeLogs bot fs).1 q = lookup fs q) := by
  refine ⟨fun q => purgeLogs_fst_lookup bot fs q, fun q hq => ?_⟩
  rw [purgeLogs_fst_lookup]
  apply if_neg
  rintro ⟨_, hsu, _, _⟩
  rcases (pathStarts_iff _ _).1 hq with ⟨t, rfl⟩
  have hps := ((strictUnder_iff _ _).1 hsu).1
  rw [show (bot ++ ["plugins"]) ++ t = bot ++ "plugins" :: t from by simp,
    pathStarts_concat_cons] at hps
  exact absurd hps (by decide)

/-- Witness for C3 on the sample disk: the log file is deleted, the stale
plugin jar is untouched by this step. -/
theorem c3_witness :
    lookup (purgeLogs sampleBot sampleFS).1
        (sampleBot ++ ["logs", "x.log"]) =
      (if isDir sampleFS (sampleBot ++ ["logs"]) = true ∧
          strictUnder (sampleBot ++ ["logs"])
            (sampleBot ++ ["logs", "x.log"]) = true ∧
          strEnds ".log" (lastName (sampleBot ++ ["logs", "x.log"])) = true ∧
          isFile sampleFS (sampleBot ++ ["logs", "x.log"]) = true
        then none else lookup sampleFS (sampleBot ++ ["logs", "x.log"])) ∧
    lookup (purgeLogs sampleBot sampleFS).1
        (sampleBot ++ ["plugins", "old", "p.jar"]) =
      lookup sampleFS (sampleBot ++ ["plugins", "old", "p.jar"]) :=
  ⟨(c3_purge_logs_exact sampleBot sampleFS).1 _,
    (c3_purge_logs_exact sampleBot sampleFS).2 _ (by decide)⟩

/-- Claim C4: the per-folder procedure (and the log-only variant) raises
`MissingFolder` exactly when the folder does not exist or is not a
directory, and in that case returns with the filesystem unchanged and no
warnings logged. -/
theorem c4_missing_folder (bot : FsPath) (cfg : Config) (fs : FS) :
    ((process_single_bot bot cfg fs).2 = some BotErr.missingFolder ↔
      ¬ (existsP fs bot = true ∧ isDir fs bot = true)) ∧
    ((process_single_bot bot cfg fs).2 ≠ none →
      (process_single_bot bot cfg fs).1 = (fs, [])) ∧
    ((clear_single_bot bot fs).2 = some BotErr.missingFolder ↔
      ¬ (existsP fs bot = true ∧ isDir fs bot = true)) ∧
    ((clear_single_bot bot fs).2 ≠ none →
      (clear_single_bot bot fs).1 = (fs, [])) := by
  unfold process_single_bot clear_single_bot
  by_cases hv : (existsP fs bot && isDir fs bot) = true
  · rw [if_pos hv, if_pos hv]
    have hb := hv
    rw [Bool.and_eq_true] at hb
    refine ⟨by simp [hb.1, hb.2], ?_, by simp [hb.1, hb.2], ?_⟩
    · intro h
      exact absurd rfl h
    · intro h
      exact absurd rfl h
  · rw [if_neg hv, if_neg hv]
    have hb : ¬ (existsP fs bot = true ∧ isDir fs bot = true) := by
      intro hcontra
      apply hv
      rw [Bool.and_eq_true]
      exact hcontra
    exact ⟨by simp [hb], fun _ => rfl, by simp [hb], fun _ => rfl⟩

/-- Witness for C4: a missing folder aborts with the filesystem untouched,
both for the full procedure and for the log-only variant. -/
theorem c4_witness :
    (process_single_bot ["nope"] sampleCfg sampleFS).1 = (sampleFS, []) ∧
    (clear_single_bot ["nope"] sampleFS).1 = (sampleFS, []) :=
  ⟨(c4_missing_folder ["nope"] sampleCfg sampleFS).2.1 (by decide),
    (c4_missing_folder ["nope"] sampleCfg sampleFS).2.2.2 (by decide)⟩

/-- Claim C2: step 5a copies the configured jar onto `<bot>/DarkBot.jar`
(overwriting any file there) exactly when the source exists, is a regular
file, and is named `DarkBot.jar` (case-sensitive); otherwise the sub-step
is skipped with a warning and nothing at all is modified. -/
theorem c2_darkjar_copy_iff (bot src : FsPath) (fs : FS)
    (hbot : isDir fs bot = true)
    (hdd : isDir fs (bot ++ ["DarkBot.jar"]) = false) :
    (((existsP fs src && isFile fs src
        && decide (lastName src = "DarkBot.jar")) = true) →
      lookup (copyDarkJar bot src fs).1 (bot ++ ["DarkBot.jar"]) =
          Option.map Node.file (contentOf fs src) ∧
      (∀ q, q ≠ bot ++ ["DarkBot.jar"] →
        lookup (copyDarkJar bot src fs).1 q = lookup fs q) ∧
      (copyDarkJar bot src fs).2 = []) ∧
    (((existsP fs src && isFile fs src
        && decide (lastName src = "DarkBot.jar")) = false) →
      copyDarkJar bot src fs = (fs, [Warn.invalidDarkJar])) := by
  constructor
  · intro hcond
    have hf : isFile fs src = true := by
      simp only [Bool.and_eq_true] at hcond
      exact hcond.1.2
    rcases contentOf_isSome_of_isFile hf with ⟨c, hc⟩
    rw [copyDarkJar_cond_true bot src fs hcond hdd hbot]
    refine ⟨?_, ?_, rfl⟩
    · rw [lookup_insertE, if_pos rfl, hc]
      rfl
    · intro q hq
      rw [lookup_insertE, if_neg hq]
  · intro hcond
    exact copyDarkJar_cond_false bot src fs (by simp [hcond])

/-- Witness for C2 on the sample disk: a valid `DarkBot.jar` source is
copied onto the bot root. -/
theorem c2_witness :
    isDir sampleFS sampleBot = true ∧
    isDir sampleFS (sampleBot ++ ["DarkBot.jar"]) = false ∧
    lookup (copyDarkJar sampleBot ["src", "DarkBot.jar"] sampleFS).1
        (sampleBot ++ ["DarkBot.jar"]) =
      Option.map Node.file (contentOf sampleFS ["src", "DarkBot.jar"]) :=
  ⟨by decide, by decide,
    ((c2_darkjar_copy_iff sampleBot ["src", "DarkBot.jar"] sampleFS
      (by decide) (by decide)).1 (by decide)).1⟩

/-- Witness for C1 on the sample disk: after the full procedure,
`plugins/updates` holds the copy of `a.jar`. -/
theorem c1_witness :
    WF sampleFS ∧ isDir sampleFS sampleBot = true ∧
    isDir sampleFS sampleCfg.pluginSrc = true ∧
    pathStarts sampleBot sampleCfg.pluginSrc = false ∧
    lookup (process_single_bot sampleBot sampleCfg sampleFS).1.1
        ((sampleBot ++ ["plugins", "updates"]) ++ ["a.jar"]) =
      (if copiedHere sampleFS sampleCfg.pluginSrc
          (sampleBot ++ ["plugins", "updates"])
          ((sampleBot ++ ["plugins", "updates"]) ++ ["a.jar"])
        then Option.map Node.file (contentOf sampleFS
          (sampleCfg.pluginSrc ++
            [lastName ((sampleBot ++ ["plugins", "updates"]) ++ ["a.jar"])]))
        else none) :=
  ⟨wfB_imp_WF sampleFS (by decide), by decide, by decide, by decide,
    (c1_plugin_updates_exact sampleBot sampleCfg sampleFS
      (wfB_imp_WF sampleFS (by decide)) (by decide) (Or.inr (by decide))
      (Or.inr (by decide)) (by decide) (by decide)).2.1 _ (by decide)⟩

theorem prefix_eq_of_length {a b q : FsPath} (ha : pathStarts a q = true)
    (hb : pathStarts b q = true) (hl : a.length = b.length) : a = b := by
  rcases (pathStarts_iff a q).1 ha with ⟨t, rfl⟩
  rcases (pathStarts_iff b _).1 hb with ⟨s, hs⟩
  exact (List.append_inj hs hl).1

/-- Claim C7: the log-only procedure `clear_single_bot` performs exactly
the validation, log-purge and stale-plugin-purge portion of
`process_single_bot`, with identical error and warning behaviour, and it
never touches `plugins/updates` or `<bot>/DarkBot.jar`. -/
theorem c7_clear_matches_first_steps (bot : FsPath) (fs : FS)
    (cfg : Config) :
    (clear_single_bot bot fs).2 = (process_single_bot bot cfg fs).2 ∧
    ((existsP fs bot && isDir fs bot) = true →
      (clear_single_bot bot fs).1 =
        ((purgeOldPlugins bot (purgeLogs bot fs).1).1,
          (purgeLogs bot fs).2 ++
            (purgeOldPlugins bot (purgeLogs bot fs).1).2)) ∧
    ((existsP fs bot && isDir fs bot) = false →
      (clear_single_bot bot fs).1 = (fs, [])) ∧
    (∀ q, pathStarts (bot ++ ["plugins", "updates"]) q = true →
      lookup (clear_single_bot bot fs).1.1 q = lookup fs q) ∧
    lookup (clear_single_bot bot fs).1.1 (bot ++ ["DarkBot.jar"]) =
      lookup fs (bot ++ ["DarkBot.jar"]) := by
  have hfirst : ∀ q,
      (¬ strictUnder (bot ++ ["logs"]) q = true ∨
        strEnds ".log" (lastName q) = false) →
      (¬ isDirectChild (bot ++ ["plugins", "old"]) q = true ∨
        strEnds ".jar" (lastName q) = false) →
      lookup (purgeOldPlugins bot (purgeLogs bot fs).1).1 q =
        lookup fs q := by
    intro q h1 h2
    rw [purgeOldPlugins_fst_lookup]
    have hn2 : ¬ (isDir (purgeLogs bot fs).1 (bot ++ ["plugins", "old"])
        = true ∧
        isDirectChild (bot ++ ["plugins", "old"]) q = true ∧
        strEnds ".jar" (lastName q) = true ∧
        isFile (purgeLogs bot fs).1 q = true) := by
      rintro ⟨_, hdc, hje, _⟩
      rcases h2 with h2 | h2
      · exact h2 hdc
      · rw [h2] at hje
        cases hje
    rw [if_neg hn2, purgeLogs_fst_lookup]
    have hn1 : ¬ (isDir fs (bot ++ ["logs"]) = true ∧
        strictUnder (bot ++ ["logs"]) q = true ∧
        strEnds ".log" (lastName q) = true ∧ isFile fs q = true) := by
      rintro ⟨_, hsu, hle, _⟩
      rcases h1 with h1 | h1
      · exact h1 hsu
      · rw [h1] at hle
        cases hle
    rw [if_neg hn1]
  constructor
  · unfold clear_single_bot process_single_bot
    by_cases hv : (existsP fs bot && isDir fs bot) = true
    · rw [if_pos hv, if_pos hv]
    · rw [if_neg hv, if_neg hv]
  refine ⟨?_, ?_, ?_, ?_⟩
  · intro hv
    unfold clear_single_bot
    rw [if_pos hv]
    rfl
  · intro hv
    unfold clear_single_bot
    rw [if_neg (by simp [hv])]
  · intro q hq
    rcases (pathStarts_iff _ _).1 hq with ⟨t, rfl⟩
    have hq' : (bot ++ ["plugins", "updates"]) ++ t =
        bot ++ "plugins" :: ("updates" :: t) := by simp
    by_cases hv : (existsP fs bot && isDir fs bot) = true
    · unfold clear_single_bot
      rw [if_pos hv]
      apply hfirst
      · left
        intro hsu
        have hps := ((strictUnder_iff _ _).1 hsu).1
        rw [hq', pathStarts_concat_cons] at hps
        exact absurd hps (by decide)
      · left
        intro hdc
        rcases (isDirectChild_iff _ _).1 hdc with ⟨n, hn⟩
        have hps1 : pathStarts (bot ++ ["plugins", "old"])
            ((bot ++ ["plugins", "updates"]) ++ t) = true := by
          rw [hn]
          exact pathStarts_append _ _
        have hps2 : pathStarts (bot ++ ["plugins", "updates"])
            ((bot ++ ["plugins", "updates"]) ++ t) = true :=
          pathStarts_append _ _
        have heq : bot ++ ["plugins", "old"] =
            bot ++ ["plugins", "updates"] :=
          prefix_eq_of_length hps1 hps2 (by simp)
        have heq2 : (bot ++ ["plugins"]) ++ ["old"] =
            (bot ++ ["plugins"]) ++ ["updates"] := by
          rw [show (bot ++ ["plugins"]) ++ ["old"] =
            bot ++ ["plugins", "old"] from by simp,
            show (bot ++ ["plugins"]) ++ ["updates"] =
            bot ++ ["plugins", "updates"] from by simp]
          exact heq
        exact absurd ((concat_eq_concat_iff _ _ _ _).1 heq2).2 (by decide)
    · unfold clear_single_bot
      rw [if_neg (by simp [hv])]
  · by_cases hv : (existsP fs bot && isDir fs bot) = true
    · unfold clear_single_bot
      rw [if_pos hv]
      apply hfirst
      · left
        intro hsu
        have hps := ((strictUnder_iff _ _).1 hsu).1
        rw [show bot ++ ["DarkBot.jar"] =
          bot ++ "DarkBot.jar" :: ([] : List String) from by simp,
          pathStarts_concat_cons] at hps
        exact absurd hps (by decide)
      · left
        intro hdc
        rcases (isDirectChild_iff _ _).1 hdc with ⟨n, hn⟩
        have hps1 : pathStarts (bot ++ ["plugins"])
            (bot ++ ["DarkBot.jar"]) = true := by
          rw [hn]
          exact pathStarts_trans
            (by rw [show bot ++ ["plugins", "old"] =
                (bot ++ ["plugins"]) ++ ["old"] from by simp]
                exact pathStarts_append _ _)
            (pathStarts_append _ _)
        rw [show bot ++ ["DarkBot.jar"] =
          bot ++ "DarkBot.jar" :: ([] : List String) from by simp,
          pathStarts_concat_cons] at hps1
        exact absurd hps1 (by decide)
    · unfold clear_single_bot
      rw [if_neg (by simp [hv])]

/-- Witness for C7 on the sample disk. -/
theorem c7_witness :
    (clear_single_bot sampleBot sampleFS).1 =
      ((purgeOldPlugins sampleBot (purgeLogs sampleBot sampleFS).1).1,
        (purgeLogs sampleBot sampleFS).2 ++
          (purgeOldPlugins sampleBot
            (purgeLogs sampleBot sampleFS).1).2) ∧
    lookup (clear_single_bot sampleBot sampleFS).1.1
        (sampleBot ++ ["plugins", "updates", "stale.jar"]) =
      lookup sampleFS (sampleBot ++ ["plugins", "updates", "stale.jar"]) :=
  ⟨(c7_clear_matches_first_steps sampleBot sampleFS sampleCfg).2.1
      (by decide),
    (c7_clear_matches_first_steps sampleBot sampleFS sampleCfg).2.2.2.1
      (sampleBot ++ ["plugins", "updates", "stale.jar"]) (by decide)⟩

/-- Claim C8 counterexample: with a configured bots root that exists but
is a regular file, `refresh_bot_list` raises — `iterdir()` throws
`NotADirectoryError` past the `exists()` guard — rather than returning an
empty sequence, so the enumeration is not exception-free for every root
path. -/
theorem c8_counterexample :
    refresh_bot_list fsRootFile (some ["root"]) = Except.error () := rfl

/-- Claim C8 (amended): with no root or a non-existing root the enumerator
returns an empty sequence and a warning without raising; with a root that
is a directory it returns, without raising, the root's child directories
that satisfy the bot-folder predicate, sorted case-insensitively by name;
and it raises exactly when the root exists but is not a directory. -/
theorem c8_enumerator_amended (fs : FS) (root : FsPath) :
    (refresh_bot_list fs none = Except.ok ([], true)) ∧
    (existsP fs root = false →
      refresh_bot_list fs (some root) = Except.ok ([], true)) ∧
    (isDir fs root = true →
      ∃ l, refresh_bot_list fs (some root) = Except.ok (l, false) ∧
        l.Perm (((listChildren fs root).filter
          (fun p => isDir fs p)).filter (fun p => is_bot_folder fs p)) ∧
        l.Pairwise (fun a b => decide (nameKey a ≤ nameKey b) = true)) ∧
    ((∃ e, refresh_bot_list fs (some root) = Except.error e) ↔
      (existsP fs root = true ∧ isDir fs root = false)) := by
  refine ⟨rfl, ?_, ?_, ?_⟩
  · intro h
    simp [refresh_bot_list, h]
  · intro hd
    have hex : existsP fs root = true := by
      rw [existsP_lookup]
      rw [isDir_lookup] at hd
      rw [hd]
      exact Option.noConfusion
    refine ⟨((listChildren fs root).filter (fun p => isDir fs p)).mergeSort
      (fun a b => decide (nameKey a ≤ nameKey b)), ?_, ?_, ?_⟩
    · have hall : ∀ p ∈ ((listChildren fs root).filter
          (fun p => isDir fs p)).mergeSort
          (fun a b => decide (nameKey a ≤ nameKey b)),
          is_bot_folder fs p = true := by
        intro p hp
        have hmem : p ∈ (listChildren fs root).filter
            (fun p => isDir fs p) :=
          ((List.mergeSort_perm _ _).mem_iff).1 hp
        rw [is_bot_folder_isDir]
        exact (List.mem_filter.1 hmem).2
      show (if (!existsP fs root) = true then Except.ok ([], true)
        else if (!isDir fs root) = true then Except.error ()
        else Except.ok ((((listChildren fs root).filter
            (fun p => isDir fs p)).mergeSort
            (fun a b => decide (nameKey a ≤ nameKey b))).filter
            (fun p => is_bot_folder fs p), false)) = _
      rw [if_neg (by simp [hex]), if_neg (by simp [hd])]
      rw [List.filter_eq_self.2 hall]
    · have hself : ((listChildren fs root).filter
          (fun p => isDir fs p)).filter (fun p => is_bot_folder fs p) =
          (listChildren fs root).filter (fun p => isDir fs p) :=
        List.filter_eq_self.2 (by
          intro p hp
          rw [is_bot_folder_isDir]
          exact (List.mem_filter.1 hp).2)
      rw [hself]
      exact List.mergeSort_perm _ _
    · exact List.sorted_mergeSort
        (by
          intro a b c hab hbc
          rw [decide_eq_true_eq] at *
          exact le_trans hab hbc)
        (by
          intro a b
          rcases le_total (nameKey a) (nameKey b) with h | h
          · simp [h]
          · simp [h])
        _
  · constructor
    · rintro ⟨e, he⟩
      by_cases hex : existsP fs root = true
      · by_cases hd : isDir fs root = true
        · exfalso
          simp [refresh_bot_list, hex, hd] at he
        · refine ⟨hex, ?_⟩
          cases h : isDir fs root
          · rfl
          · exact absurd h hd
      · exfalso
        have hex' : existsP fs root = false := by
          cases h : existsP fs root
          · rfl
          · exact absurd h hex
        simp [refresh_bot_list, hex'] at he
    · rintro ⟨hex, hd⟩
      refine ⟨(), ?_⟩
      simp [refresh_bot_list, hex, hd]

/-- Witness for C8's amended theorem on the sample disk. -/
theorem c8_witness :
    existsP sampleFS ["nothere"] = false ∧
    refresh_bot_list sampleFS (some ["nothere"]) = Except.ok ([], true) ∧
    isDir sampleFS ["bots"] = true ∧
    (∃ l, refresh_bot_list sampleFS (some ["bots"]) = Except.ok (l, false) ∧
      l.Perm (((listChildren sampleFS ["bots"]).filter
        (fun p => isDir sampleFS p)).filter
        (fun p => is_bot_folder sampleFS p)) ∧
      l.Pairwise (fun a b => decide (nameKey a ≤ nameKey b) = true)) :=
  ⟨by decide, (c8_enumerator_amended sampleFS ["nothere"]).2.1 (by decide),
    by decide, (c8_enumerator_amended sampleFS ["bots"]).2.2.1 (by decide)⟩

/-! ### The batch worker -/

theorem logLine_parts (st : WorkerState) (l : LogLine) :
    (logLine st l).fs = st.fs ∧
    (logLine st l).logLines = st.logLines ++ [l] ∧
    (logLine st l).uiWrites =
      st.uiWrites ++ [UIWrite.mk Widget.logText false] ∧
    (logLine st l).errors = st.errors ∧
    (logLine st l).progressMax = st.progressMax :=
  ⟨rfl, rfl, rfl, rfl, rfl⟩

theorem foldl_warnLines_eq (ws : List Warn) (st : WorkerState) :
    ws.foldl (fun s w => logLine s (LogLine.warnLine w)) st =
      { st with
        logLines := st.logLines ++ ws.map LogLine.warnLine
        uiWrites := st.uiWrites ++
          ws.map (fun _ => UIWrite.mk Widget.logText false) } := by
  induction ws generalizing st with
  | nil => simp
  | cons w rest ih =>
    rw [List.foldl_cons, ih]
    simp [logLine, List.append_assoc]

theorem filterMap_processing_warnLines (ws : List Warn) :
    (ws.map LogLine.warnLine).filterMap processingOf = [] := by
  induction ws with
  | nil => rfl
  | cons w rest ih => simp [processingOf, ih]

theorem countP_error_warnLines (ws : List Warn) :
    (ws.map LogLine.warnLine).countP isErrorLine = 0 := by
  induction ws with
  | nil => rfl
  | cons w rest ih => simp [isErrorLine, ih, List.countP_cons]

theorem countP_error_warnComp (ws : List Warn) :
    ws.countP (isErrorLine ∘ LogLine.warnLine) = 0 := by
  induction ws with
  | nil => rfl
  | cons w rest ih => simp [List.countP_cons, Function.comp, isErrorLine, ih]

theorem filterMap_processing_warnComp (ws : List Warn) :
    ws.filterMap (processingOf ∘ LogLine.warnLine) = [] := by
  induction ws with
  | nil => rfl
  | cons w rest ih => simp [Function.comp, processingOf, ih]

theorem runWorkerStep_processing (cfg : Config) (total : Nat)
    (st : WorkerState) (ip : Nat × FsPath) :
    (runWorkerStep cfg total st ip).logLines.filterMap processingOf =
      st.logLines.filterMap processingOf ++ [ip.2] := by
  simp only [runWorkerStep, foldl_warnLines_eq]
  cases (process_single_bot ip.2 cfg
      (logLine st (LogLine.processing ip.1 total ip.2)).fs).2 with
  | none =>
    simp [logLine, setProgress, List.filterMap_append,
      filterMap_processing_warnLines, filterMap_processing_warnComp,
      processingOf]
  | some e =>
    simp [logLine, setProgress, List.filterMap_append,
      filterMap_processing_warnLines, filterMap_processing_warnComp,
      processingOf]

theorem runWorkerStep_progressMax (cfg : Config) (total : Nat)
    (st : WorkerState) (ip : Nat × FsPath) :
    (runWorkerStep cfg total st ip).progressMax = st.progressMax := by
  simp only [runWorkerStep, foldl_warnLines_eq]
  cases (process_single_bot ip.2 cfg
      (logLine st (LogLine.processing ip.1 total ip.2)).fs).2 with
  | none => simp [logLine, setProgress]
  | some e => simp [logLine, setProgress]

theorem runWorkerStep_errors (cfg : Config) (total : Nat)
    (st : WorkerState) (ip : Nat × FsPath) :
    (runWorkerStep cfg total st ip).errors +
        st.logLines.countP isErrorLine =
      st.errors +
        (runWorkerStep cfg total st ip).logLines.countP isErrorLine := by
  simp only [runWorkerStep, foldl_warnLines_eq]
  cases (process_single_bot ip.2 cfg
      (logLine st (LogLine.processing ip.1 total ip.2)).fs).2 with
  | none =>
    simp [logLine, setProgress, List.countP_append, countP_error_warnLines,
      countP_error_warnComp, isErrorLine, List.countP_cons]
  | some e =>
    simp [logLine, setProgress, List.countP_append, countP_error_warnLines,
      countP_error_warnComp, isErrorLine, List.countP_cons]
    omega

theorem runWorkerStep_ui_direct (cfg : Config) (total : Nat)
    (st : WorkerState) (ip : Nat × FsPath)
    (h : ∀ w ∈ st.uiWrites, w.viaAfter = false) :
    ∀ w ∈ (runWorkerStep cfg total st ip).uiWrites, w.viaAfter = false := by
  simp only [runWorkerStep, foldl_warnLines_eq]
  cases (process_single_bot ip.2 cfg
      (logLine st (LogLine.processing ip.1 total ip.2)).fs).2 with
  | none =>
    simp only [logLine, setProgress, List.mem_append]
    intro w hw
    rcases hw with ((hw | hw) | hw) | hw
    · rcases hw with hw | hw
      · exact h w hw
      · rw [List.mem_singleton.1 hw]
    · rcases List.mem_map.1 hw with ⟨_, _, hww⟩
      rw [← hww]
    · rw [List.mem_singleton.1 hw]
    · rw [List.mem_singleton.1 hw]
  | some e =>
    simp only [logLine, setProgress, List.mem_append]
    intro w hw
    rcases hw with (((hw | hw) | hw) | hw) | hw
    · rcases hw with hw | hw
      · exact h w hw
      · rw [List.mem_singleton.1 hw]
    · rcases List.mem_map.1 hw with ⟨_, _, hww⟩
      rw [← hww]
    · rw [List.mem_singleton.1 hw]
    · rw [List.mem_singleton.1 hw]
    · rw [List.mem_singleton.1 hw]

theorem foldl_runWorkerStep_processing (cfg : Config) (total : Nat)
    (ips : List (Nat × FsPath)) (st : WorkerState) :
    ((ips.foldl (runWorkerStep cfg total) st).logLines.filterMap
        processingOf) =
      st.logLines.filterMap processingOf ++ ips.map Prod.snd := by
  induction ips generalizing st with
  | nil => simp
  | cons ip rest ih =>
    rw [List.foldl_cons, ih, runWorkerStep_processing]
    simp

theorem foldl_runWorkerStep_progressMax (cfg : Config) (total : Nat)
    (ips : List (Nat × FsPath)) (st : WorkerState) :
    (ips.foldl (runWorkerStep cfg total) st).progressMax =
      st.progressMax := by
  induction ips generalizing st with
  | nil => rfl
  | cons ip rest ih =>
    rw [List.foldl_cons, ih, runWorkerStep_progressMax]

theorem foldl_runWorkerStep_errors (cfg : Config) (total : Nat)
    (ips : List (Nat × FsPath)) (st : WorkerState) :
    (ips.foldl (runWorkerStep cfg total) st).errors +
        st.logLines.countP isErrorLine =
      st.errors +
        (ips.foldl (runWorkerStep cfg total) st).logLines.countP
          isErrorLine := by
  induction ips generalizing st with
  | nil => rfl
  | cons ip rest ih =>
    rw [List.foldl_cons]
    have h1 := runWorkerStep_errors cfg total st ip
    have h2 := ih (runWorkerStep cfg total st ip)
    omega

theorem runWorkerStep_ui_mono (cfg : Config) (total : Nat)
    (st : WorkerState) (ip : Nat × FsPath) (w : UIWrite)
    (h : w ∈ st.uiWrites) :
    w ∈ (runWorkerStep cfg total st ip).uiWrites := by
  simp only [runWorkerStep, foldl_warnLines_eq]
  cases (process_single_bot ip.2 cfg
      (logLine st (LogLine.processing ip.1 total ip.2)).fs).2 with
  | none =>
    simp only [logLine, setProgress]
    exact List.mem_append_left _ (List.mem_append_left _
      (List.mem_append_left _ (List.mem_append_left _ h)))
  | some e =>
    simp only [logLine, setProgress]
    exact List.mem_append_left _ (List.mem_append_left _
      (List.mem_append_left _ (List.mem_append_left _
        (List.mem_append_left _ h))))

theorem foldl_runWorkerStep_ui_mono (cfg : Config) (total : Nat)
    (ips : List (Nat × FsPath)) (st : WorkerState) (w : UIWrite)
    (h : w ∈ st.uiWrites) :
    w ∈ (ips.foldl (runWorkerStep cfg total) st).uiWrites := by
  induction ips generalizing st with
  | nil => exact h
  | cons ip rest ih =>
    rw [List.foldl_cons]
    exact ih _ (runWorkerStep_ui_mono cfg total st ip w h)

theorem foldl_runWorkerStep_ui_direct (cfg : Config) (total : Nat)
    (ips : List (Nat × FsPath)) (st : WorkerState)
    (h : ∀ w ∈ st.uiWrites, w.viaAfter = false) :
    ∀ w ∈ (ips.foldl (runWorkerStep cfg total) st).uiWrites,
      w.viaAfter = false := by
  induction ips generalizing st with
  | nil => exact h
  | cons ip rest ih =>
    rw [List.foldl_cons]
    exact ih _ (runWorkerStep_ui_direct cfg total st ip h)

/-- The loop and summary of `_run_worker`, characterized over any start
state whose log holds only the start message. -/
theorem worker_loop_summary (cfg : Config) (paths : List FsPath)
    (st2 st3 final : WorkerState)
    (hlog : st2.logLines = [LogLine.opStart paths.length])
    (herr0 : st2.errors = 0)
    (hmax2 : st2.progressMax = paths.length)
    (h3 : st3 = List.foldl (runWorkerStep cfg paths.length) st2
      (List.zip (List.range' 1 paths.length) paths))
    (hfin : final = if st3.errors = 0
      then logLine st3 (LogLine.summarySuccess paths.length)
      else logLine st3 (LogLine.summaryErrors st3.errors)) :
    final.logLines.filterMap processingOf = paths ∧
    final.progressMax = paths.length ∧
    final.errors = final.logLines.countP isErrorLine := by
  have hzip : (List.zip (List.range' 1 paths.length) paths).map Prod.snd =
      paths := by
    apply List.map_snd_zip
    simp [List.length_range']
  have hproc := foldl_runWorkerStep_processing cfg paths.length
    (List.zip (List.range' 1 paths.length) paths) st2
  rw [← h3, hlog, hzip] at hproc
  have hmax3 := foldl_runWorkerStep_progressMax cfg paths.length
    (List.zip (List.range' 1 paths.length) paths) st2
  rw [← h3, hmax2] at hmax3
  have herr := foldl_runWorkerStep_errors cfg paths.length
    (List.zip (List.range' 1 paths.length) paths) st2
  rw [← h3, hlog, herr0] at herr
  have hcnt0 : List.countP isErrorLine [LogLine.opStart paths.length]
      = 0 := rfl
  rw [hcnt0] at herr
  have hsumS : List.countP isErrorLine
      [LogLine.summarySuccess paths.length] = 0 := rfl
  have hsumE : ∀ k, List.countP isErrorLine [LogLine.summaryErrors k]
      = 0 := fun k => rfl
  by_cases he : st3.errors = 0
  · rw [hfin, if_pos he]
    refine ⟨?_, ?_, ?_⟩
    · rw [(logLine_parts _ _).2.1, List.filterMap_append, hproc]
      simp [processingOf]
    · rw [(logLine_parts _ _).2.2.2.2, hmax3]
    · rw [(logLine_parts _ _).2.2.2.1, (logLine_parts _ _).2.1,
        List.countP_append, hsumS]
      omega
  · rw [hfin, if_neg he]
    refine ⟨?_, ?_, ?_⟩
    · rw [(logLine_parts _ _).2.1, List.filterMap_append, hproc]
      simp [processingOf]
    · rw [(logLine_parts _ _).2.2.2.2, hmax3]
    · rw [(logLine_parts _ _).2.2.2.1, (logLine_parts _ _).2.1,
        List.countP_append, hsumE]
      omega

/-- The worker's widget-write trace, characterized over any start state
whose writes are all direct and include a progress-bar write. -/
theorem worker_loop_ui (cfg : Config) (paths : List FsPath)
    (st2 st3 final : WorkerState)
    (hdir2 : ∀ w ∈ st2.uiWrites, w.viaAfter = false)
    (hmem2 : UIWrite.mk Widget.progressBar false ∈ st2.uiWrites)
    (h3 : st3 = List.foldl (runWorkerStep cfg paths.length) st2
      (List.zip (List.range' 1 paths.length) paths))
    (hfin : final = if st3.errors = 0
      then logLine st3 (LogLine.summarySuccess paths.length)
      else logLine st3 (LogLine.summaryErrors st3.errors)) :
    (∀ w ∈ final.uiWrites, w.viaAfter = false) ∧
    UIWrite.mk Widget.progressBar false ∈ final.uiWrites := by
  have hdirf := foldl_runWorkerStep_ui_direct cfg paths.length
    (List.zip (List.range' 1 paths.length) paths) st2 hdir2
  rw [← h3] at hdirf
  have hmemf := foldl_runWorkerStep_ui_mono cfg paths.length
    (List.zip (List.range' 1 paths.length) paths) st2 _ hmem2
  rw [← h3] at hmemf
  by_cases he : st3.errors = 0
  · rw [hfin, if_pos he]
    constructor
    · intro w hw
      rw [(logLine_parts _ _).2.2.1] at hw
      rcases List.mem_append.1 hw with hw | hw
      · exact hdirf w hw
      · rw [List.mem_singleton.1 hw]
    · rw [(logLine_parts _ _).2.2.1]
      exact List.mem_append_left _ hmemf
  · rw [hfin, if_neg he]
    constructor
    · intro w hw
      rw [(logLine_parts _ _).2.2.1] at hw
      rcases List.mem_append.1 hw with hw | hw
      · exact hdirf w hw
      · rw [List.mem_singleton.1 hw]
    · rw [(logLine_parts _ _).2.2.1]
      exact List.mem_append_left _ hmemf

/-- Claim C5: the batch runner logs a `Processing` line for every input
path, exactly once each and in the input order — a per-folder failure is
tallied and does not stop later folders — the progress maximum is the
input count, and the error tally equals the number of per-folder error
messages in the log. -/
theorem c5_worker_batch (cfg : Config) (paths : List FsPath) (fs : FS) :
    (run_worker cfg paths fs).logLines.filterMap processingOf = paths ∧
    (run_worker cfg paths fs).progressMax = paths.length ∧
    (run_worker cfg paths fs).errors =
      (run_worker cfg paths fs).logLines.countP isErrorLine :=
  worker_loop_summary cfg paths
    (logLine (setProgressMax (setProgress
      { fs := fs, logLines := [], uiWrites := [], progressValue := 0,
        progressMax := 0, errors := 0 } 0) paths.length)
      (LogLine.opStart paths.length))
    (List.foldl (runWorkerStep cfg paths.length)
      (logLine (setProgressMax (setProgress
        { fs := fs, logLines := [], uiWrites := [], progressValue := 0,
          progressMax := 0, errors := 0 } 0) paths.length)
        (LogLine.opStart paths.length))
      (List.zip (List.range' 1 paths.length) paths))
    (run_worker cfg paths fs) rfl rfl rfl rfl rfl

/-- Claim C10 (evidence for the code bug): every widget update the worker
performs — the progress-bar writes and the log-text writes — is a direct
mutation from the worker thread (`viaAfter = false`), and a direct
progress-bar write always occurs.  The source contains no `root.after`
marshaling at all, contradicting the requirement that cross-thread UI
updates be marshaled onto the interface thread. -/
theorem c10_worker_writes_direct (cfg : Config) (paths : List FsPath)
    (fs : FS) :
    (∀ w ∈ (run_worker cfg paths fs).uiWrites, w.viaAfter = false) ∧
    UIWrite.mk Widget.progressBar false ∈
      (run_worker cfg paths fs).uiWrites :=
  worker_loop_ui cfg paths
    (logLine (setProgressMax (setProgress
      { fs := fs, logLines := [], uiWrites := [], progressValue := 0,
        progressMax := 0, errors := 0 } 0) paths.length)
      (LogLine.opStart paths.length))
    (List.foldl (runWorkerStep cfg paths.length)
      (logLine (setProgressMax (setProgress
        { fs := fs, logLines := [], uiWrites := [], progressValue := 0,
          progressMax := 0, errors := 0 } 0) paths.length)
        (LogLine.opStart paths.length))
      (List.zip (List.range' 1 paths.length) paths))
    (run_worker cfg paths fs)
    (by
      intro w hw
      simp only [logLine, setProgressMax, setProgress,
        List.mem_append] at hw
      rcases hw with ((hw | hw) | hw) | hw
      · simp at hw
      · rw [List.mem_singleton.1 hw]
      · rw [List.mem_singleton.1 hw]
      · rw [List.mem_singleton.1 hw])
    (by simp [logLine, setProgressMax, setProgress])
    rfl rfl


end DarkBotManager
